import Mathlib

/-!
Verification of the table-formatting library: grid skeleton builder
(`GridSizes.to_table`), content grid generator (`generate_string_grid`),
and the ANSI string stylizer (`format_string`).

Rust strings are modelled as lists of Unicode scalar values (`List Char`);
byte-level operations carry explicit UTF-8 sizes.  Code that can panic
(arithmetic underflow on sizes below 2, out-of-bounds indexing, `unwrap`,
the explicit `panic!` in `get_replaced_dimension_index`) is modelled with
`Option`, `none` standing for a panic.
-/

abbrev RStr := List Char

/-- Length in bytes of the UTF-8 encoding of a character, as computed by
the Rust standard library (`char::len_utf8`). -/
def len_utf8 (c : Char) : Nat :=
  if c.val < 0x80 then 1
  else if c.val < 0x800 then 2
  else if c.val < 0x10000 then 3
  else 4

/-- Total UTF-8 byte length of a character list. -/
def utf8Len (s : RStr) : Nat := (s.map len_utf8).sum

/-- Number of characters spanned by the first `b` bytes of `s` (for `b` a
character boundary this inverts `utf8Len` on prefixes). -/
def charPosOfByte : RStr → Nat → Nat
  | _, 0 => 0
  | [], _ + 1 => 0
  | c :: cs, b + 1 => 1 + charPosOfByte cs (b + 1 - len_utf8 c)

/-- Maximum of a list of naturals (0 on the empty list). -/
def listMax (l : List Nat) : Nat := l.foldr max 0

/-- Joins the pieces with `sep` between consecutive pieces, nothing at
either end. -/
def joinSep {α : Type} (sep : List α) : List (List α) → List α
  | [] => []
  | [a] => a
  | a :: b :: rest => a ++ sep ++ joinSep sep (b :: rest)

/-- Splits a string at every line feed, exactly like the Rust iterator
`str::split` at the character given: the empty string yields one empty
piece, a trailing line feed yields a trailing empty piece. -/
def splitLines : RStr → List RStr
  | [] => [[]]
  | c :: cs =>
    if c = '\n' then [] :: splitLines cs
    else
      match splitLines cs with
      | [] => [[c]]
      | l :: ls => (c :: l) :: ls

/-- Width of a cell string: the maximum over its lines of the character
count of the line (source function `get_string_width`). -/
def get_string_width (s : RStr) : Nat :=
  (splitLines s).foldl (fun m l => max m l.length) 0

/-- Height of a cell string: the number of line feeds plus one (source
function `get_string_height`). -/
def get_string_height (s : RStr) : Nat := s.count '\n' + 1

/-- Sizes of the rectangles forming a grid (source struct `GridSizes`). -/
structure GridSizes where
  widths : List Nat
  heights : List Nat

/-- Loop of `generate_top_string` over the widths after the first: each
step appends `┳` and then `widths[i] - 2` horizontal bars, failing when a
width is below 2 (arithmetic underflow in the source). -/
def top_go : List Nat → RStr → Option RStr
  | [], acc => some (acc ++ ['┓'])
  | w :: ws, acc =>
    if w < 2 then none
    else top_go ws (acc ++ ['┳'] ++ List.replicate (w - 2) '━')

/-- Top border line (source `GridSizes::generate_top_string`): indexing
`widths[0]` fails on an empty width list. -/
def generate_top_string (g : GridSizes) : Option RStr :=
  match g.widths with
  | [] => none
  | w :: ws =>
    if w < 2 then none
    else top_go ws ('┏' :: List.replicate (w - 2) '━')

/-- Loop of `generate_bottom_string`, mirroring `top_go` with `┻` and
`┛`. -/
def bottom_go : List Nat → RStr → Option RStr
  | [], acc => some (acc ++ ['┛'])
  | w :: ws, acc =>
    if w < 2 then none
    else bottom_go ws (acc ++ ['┻'] ++ List.replicate (w - 2) '━')

/-- Bottom border line (source `GridSizes::generate_bottom_string`). -/
def generate_bottom_string (g : GridSizes) : Option RStr :=
  match g.widths with
  | [] => none
  | w :: ws =>
    if w < 2 then none
    else bottom_go ws ('┗' :: List.replicate (w - 2) '━')

/-- Loop of `get_unit_columns`: appends `widths[i] - 2` spaces and a `┃`
for every column. -/
def unit_go : List Nat → RStr → Option RStr
  | [], acc => some acc
  | w :: ws, acc =>
    if w < 2 then none
    else unit_go ws (acc ++ List.replicate (w - 2) ' ' ++ ['┃'])

/-- Blank interior line (source `GridSizes::get_unit_columns`). -/
def get_unit_columns (g : GridSizes) : Option RStr :=
  unit_go g.widths ['┃']

/-- Interior band of a row (source `GridSizes::generate_columns`): the
blank line repeated `height - 2` times, failing when the height is below
2. -/
def generate_columns (g : GridSizes) (columns_height : Nat) : Option (List RStr) :=
  if columns_height < 2 then none
  else
    match get_unit_columns g with
    | none => none
    | some u => some (List.replicate (columns_height - 2) u)

/-- Loop of `get_column_seperator`: bars for each width, `╋` between
consecutive columns, closed by `┫`. -/
def sep_go : List Nat → RStr → Option RStr
  | [], acc => some (acc ++ ['┫'])
  | [w], acc =>
    if w < 2 then none
    else some (acc ++ List.replicate (w - 2) '━' ++ ['┫'])
  | w :: v :: ws, acc =>
    if w < 2 then none
    else sep_go (v :: ws) (acc ++ List.replicate (w - 2) '━' ++ ['╋'])

/-- Separator line between table rows (source
`GridSizes::get_column_seperator`): computing `widths.len() - 1` on an
empty width list fails. -/
def get_column_seperator (g : GridSizes) : Option RStr :=
  match g.widths with
  | [] => none
  | w :: ws => sep_go (w :: ws) ['┣']

/-- Loop body of `to_table` over the heights: the interior band of each
row, with the separator line pushed after every row except the last. -/
def table_body_go (g : GridSizes) (sep : RStr) : List Nat → Option (List RStr)
  | [] => some []
  | [h] => generate_columns g h
  | h :: h₂ :: hs =>
    match generate_columns g h with
    | none => none
    | some band =>
      match table_body_go g sep (h₂ :: hs) with
      | none => none
      | some rest => some (band ++ [sep] ++ rest)

/-- Full skeleton (source `GridSizes::to_table`): top border, per row its
interior band with separators between consecutive rows, bottom border.
Computing `heights.len() - 1` on an empty height list fails. -/
def GridSizes.to_table (g : GridSizes) : Option (List RStr) :=
  match generate_top_string g with
  | none => none
  | some top =>
    match g.heights with
    | [] => none
    | h :: hs =>
      match get_column_seperator g with
      | none => none
      | some sep =>
        match table_body_go g sep (h :: hs) with
        | none => none
        | some body =>
          match generate_bottom_string g with
          | none => none
          | some bottom => some ([top] ++ body ++ [bottom])

/-- Maximum width of each column (source `get_max_widths`): for every
column index below `U`, 2 plus ... folded as in the source, a running
maximum over the rows starting from 0 of the cell width plus 2. -/
def get_max_widths (U : Nat) (contents : List (List RStr)) : List Nat :=
  (List.range U).map fun j =>
    contents.foldl (fun m row => max m (get_string_width (row.getD j []) + 2)) 0

/-- Maximum height of each row (source `get_max_heights`): per row, a
running maximum over its first `U` cells of the cell height plus 2. -/
def get_max_heights (U : Nat) (contents : List (List RStr)) : List Nat :=
  contents.map fun row =>
    (row.take U).foldl (fun m cell => max m (get_string_height cell + 2)) 0

/-- Byte offset of the character at the given character index (source
`map_string_index`, backed by `char_indices().nth(index)`), failing when
the index is not the index of a character of the string. -/
def map_string_index (s : RStr) (index : Nat) : Option Nat :=
  if index < s.length then some (utf8Len (s.take index)) else none

/-- Byte-indexed range replacement (Rust `String::replace_range`): the
characters whose bytes lie in the range are replaced; given boundary
offsets this splices at the corresponding character positions. -/
def replaceRangeBytes (s : RStr) (bStart bEnd : Nat) (repl : RStr) : RStr :=
  s.take (charPosOfByte s bStart) ++ repl ++ s.drop (charPosOfByte s bEnd)

/-- Body of the per-line loop of `insert_text`: the end byte offset is
mapped first, then the start byte offset, then the range is replaced by
the inserted line, exactly as in the source. -/
def replace_line (current_line : RStr) (string_x_start : Nat) (inserted_line : RStr) :
    Option RStr :=
  match map_string_index current_line (string_x_start + get_string_width inserted_line) with
  | none => none
  | some bEnd =>
    match map_string_index current_line string_x_start with
    | none => none
    | some bStart => some (replaceRangeBytes current_line bStart bEnd inserted_line)

/-- Loop of `insert_text` over the sliced lines: the line at relative
index `i` is rewritten with the piece `split('\n').nth(i)` of the
inserted text, whose absence is the `unwrap` failure of the source. -/
def zipReplace (string_x_start : Nat) : List RStr → List RStr → Option (List RStr)
  | [], _ => some []
  | _ :: _, [] => none
  | line :: rest, piece :: pieces =>
    match replace_line line string_x_start piece with
    | none => none
    | some l =>
      match zipReplace string_x_start rest pieces with
      | none => none
      | some ls => some (l :: ls)

/-- Cumulative offset of the rectangle at `coord` along one dimension
(source `get_replaced_dimension_index`): 1 to skip the leading border,
then each earlier size minus 1 so that shared borders are counted once;
the trailing `panic!` when `coord` is not reached is `none`, and so is
the arithmetic underflow of `current_dimension - 1` on a zero size
walked over before the coordinate. -/
def replaced_dimension_go (start_index : Nat) : List Nat → Nat → Option Nat
  | [], _ => none
  | d :: ds, coord =>
    if coord = 0 then some start_index
    else if d < 1 then none
    else replaced_dimension_go (start_index + (d - 1)) ds (coord - 1)

/-- Entry of the loop above with the start index 1. -/
def get_replaced_dimension_index (dimension : List Nat) (coord : Nat) : Option Nat :=
  replaced_dimension_go 1 dimension coord

/-- Inserts one cell text into the grid lines at the given coordinates
(source `insert_text`): the changed lines are the slice from the row
start offset to that start plus the text height, and slicing past the
end of the lines is an indexing failure. -/
def insert_text (inserted_text : RStr) (original_lines : List RStr) (grid : GridSizes)
    (x y : Nat) : Option (List RStr) :=
  match get_replaced_dimension_index grid.heights y with
  | none => none
  | some string_y_start =>
    let string_y_end := string_y_start + get_string_height inserted_text
    match get_replaced_dimension_index grid.widths x with
    | none => none
    | some string_x_start =>
      if string_y_end ≤ original_lines.length then
        match
          zipReplace string_x_start
            ((original_lines.drop string_y_start).take (string_y_end - string_y_start))
            (splitLines inserted_text)
        with
        | none => none
        | some mid =>
          some (original_lines.take string_y_start ++ mid ++
            original_lines.drop string_y_end)
      else none

/-- Inner loop of `generate_string_grid`: the cells of one row inserted
left to right, the column index increasing from `x`. -/
def insert_cells (g : GridSizes) (y : Nat) : Nat → List RStr → List RStr →
    Option (List RStr)
  | _, [], lines => some lines
  | x, cell :: cells, lines =>
    match insert_text cell lines g x y with
    | none => none
    | some lines₂ => insert_cells g y (x + 1) cells lines₂

/-- Outer loop of `generate_string_grid`: the rows inserted top to
bottom, each row truncated to its first `U` cells as by `take(U)`. -/
def insert_rows (g : GridSizes) (U : Nat) : Nat → List (List RStr) → List RStr →
    Option (List RStr)
  | _, [], lines => some lines
  | y, row :: rows, lines =>
    match insert_cells g y 0 (row.take U) lines with
    | none => none
    | some lines₂ => insert_rows g U (y + 1) rows lines₂

/-- Public entry point (source `generate_string_grid`): an empty table
short-circuits to the minimal two-line box; otherwise the inferred sizes
build the skeleton and every cell is inserted in row-major order. -/
def generate_string_grid (U : Nat) (contents : List (List RStr)) : Option (List RStr) :=
  if contents.isEmpty then some ["┏┓".toList, "┗┛".toList]
  else
    let grid : GridSizes := ⟨get_max_widths U contents, get_max_heights U contents⟩
    match grid.to_table with
    | none => none
    | some tbl => insert_rows grid U 0 contents tbl

/-- Row-source adapter shared by the map implementations of `to_table`
(source `impl StringTable for HashMap` and `for BTreeMap`): a header row
followed by one two-cell row per entry, in iteration order. -/
def map_to_table (entries : List (RStr × RStr)) : Option (List RStr) :=
  generate_string_grid 2
    (["Keys:".toList, "Values:".toList] :: entries.map fun e => [e.1, e.2])

/-- Blink speeds of the SGR stylizer (source enum `StringBlinkSpeed`). -/
inductive StringBlinkSpeed where
  | None
  | Slow
  | Fast
deriving DecidableEq

/-- Basic SGR colors (source enum `StringColor`). -/
inductive StringColor where
  | Black
  | Red
  | Green
  | Yellow
  | Blue
  | Magenta
  | Cyan
  | White
  | Gray
  | Pink
  | Lime
  | BrightYellow
  | LightBlue
  | LightMagenta
  | LightCyan
  | BrightWhite
  | None
deriving DecidableEq

/-- Stylizing options for ANSI-formatted strings (source struct
`StringStyle`). -/
structure StringStyle where
  bold : Bool
  faint : Bool
  italicized : Bool
  underline : Bool
  strikethrough : Bool
  blink : StringBlinkSpeed
  color : StringColor
  background_color : StringColor
deriving DecidableEq

/-- Default style, affecting nothing (source `StringStyle::default`). -/
def StringStyle.default : StringStyle :=
  { bold := false, faint := false, italicized := false, underline := false,
    strikethrough := false, blink := StringBlinkSpeed.None,
    color := StringColor.None, background_color := StringColor.None }

/-- Semicolon-terminated code pushed for the blink speed (source match on
`style.blink`). -/
def blinkChunk : StringBlinkSpeed → RStr
  | StringBlinkSpeed.None => []
  | StringBlinkSpeed.Slow => ['5', ';']
  | StringBlinkSpeed.Fast => ['6', ';']

/-- Semicolon-terminated code pushed for the foreground color (source
match on `style.color`). -/
def colorChunk : StringColor → RStr
  | StringColor.Black => ['3', '0', ';']
  | StringColor.Red => ['3', '1', ';']
  | StringColor.Green => ['3', '2', ';']
  | StringColor.Yellow => ['3', '3', ';']
  | StringColor.Blue => ['3', '4', ';']
  | StringColor.Magenta => ['3', '5', ';']
  | StringColor.Cyan => ['3', '6', ';']
  | StringColor.White => ['3', '7', ';']
  | StringColor.Gray => ['9', '0', ';']
  | StringColor.Pink => ['9', '1', ';']
  | StringColor.Lime => ['9', '2', ';']
  | StringColor.BrightYellow => ['9', '3', ';']
  | StringColor.LightBlue => ['9', '4', ';']
  | StringColor.LightMagenta => ['9', '5', ';']
  | StringColor.LightCyan => ['9', '6', ';']
  | StringColor.BrightWhite => ['9', '7', ';']
  | StringColor.None => []

/-- Semicolon-terminated code pushed for the background color (source
match on `style.background_color`). -/
def backgroundChunk : StringColor → RStr
  | StringColor.Black => ['4', '0', ';']
  | StringColor.Red => ['4', '1', ';']
  | StringColor.Green => ['4', '2', ';']
  | StringColor.Yellow => ['4', '3', ';']
  | StringColor.Blue => ['4', '4', ';']
  | StringColor.Magenta => ['4', '5', ';']
  | StringColor.Cyan => ['4', '6', ';']
  | StringColor.White => ['4', '7', ';']
  | StringColor.Gray => ['1', '0', '0', ';']
  | StringColor.Pink => ['1', '0', '1', ';']
  | StringColor.Lime => ['1', '0', '2', ';']
  | StringColor.BrightYellow => ['1', '0', '3', ';']
  | StringColor.LightBlue => ['1', '0', '4', ';']
  | StringColor.LightMagenta => ['1', '0', '5', ';']
  | StringColor.LightCyan => ['1', '0', '6', ';']
  | StringColor.BrightWhite => ['1', '0', '7', ';']
  | StringColor.None => []

/-- Stylizes a string with ANSI SGR escape sequences (source
`format_string`): the default style returns the input unchanged;
otherwise the prefix is built by pushing a semicolon-terminated chunk per
set attribute, the final excess semicolon is popped, `m` closes the
prefix, and the reset sequence is appended after the text. -/
def format_string (unformatted_string : RStr) (style : StringStyle) : RStr :=
  if style = StringStyle.default then unformatted_string
  else
    let p := ['\x1b', '[']
    let p := p ++ (if style.bold then ['1', ';'] else [])
    let p := p ++ (if style.faint then ['2', ';'] else [])
    let p := p ++ (if style.italicized then ['3', ';'] else [])
    let p := p ++ (if style.underline then ['4', ';'] else [])
    let p := p ++ (if style.strikethrough then ['9', ';'] else [])
    let p := p ++ blinkChunk style.blink
    let p := p ++ colorChunk style.color
    let p := p ++ backgroundChunk style.background_color
    let p := p.dropLast
    let p := p ++ ['m']
    p ++ unformatted_string ++ ['\x1b', '[', '0', 'm']

/-! Spec-side descriptions of the skeleton lines, transcribed from the
specification wording, to be compared with the source functions. -/

/-- Top border as the spec describes it: `┏`, per column the horizontal
bars, `┳` between columns, closed by `┓`. -/
def specTop (widths : List Nat) : RStr :=
  ['┏'] ++ joinSep ['┳'] (widths.map fun w => List.replicate (w - 2) '━') ++ ['┓']

/-- Bottom border as the spec describes it, mirroring the top. -/
def specBottom (widths : List Nat) : RStr :=
  ['┗'] ++ joinSep ['┻'] (widths.map fun w => List.replicate (w - 2) '━') ++ ['┛']

/-- Separator line as the spec describes it. -/
def specSep (widths : List Nat) : RStr :=
  ['┣'] ++ joinSep ['╋'] (widths.map fun w => List.replicate (w - 2) '━') ++ ['┫']

/-- Interior line as the spec describes it: `┃` followed per column by
the spaces and a `┃`. -/
def specInterior (widths : List Nat) : RStr :=
  '┃' :: (widths.map fun w => List.replicate (w - 2) ' ' ++ ['┃']).flatten

/-- Whole skeleton as the spec describes it: top border, then per row its
band of interior lines with a separator between consecutive rows, then
the bottom border. -/
def specTable (g : GridSizes) : List RStr :=
  [specTop g.widths] ++
    joinSep [specSep g.widths]
      (g.heights.map fun h => List.replicate (h - 2) (specInterior g.widths)) ++
    [specBottom g.widths]

lemma joinSep_cons {α : Type} (sep : List α) (a : List α) (l : List (List α)) :
    joinSep sep (a :: l) = a ++ (l.map fun x => sep ++ x).flatten := by
  induction l generalizing a with
  | nil => simp [joinSep]
  | cons b t ih => simp [joinSep, ih b, List.append_assoc]

lemma joinSep_length {α : Type} (sep : List α) (l : List (List α)) :
    (joinSep sep l).length = (l.map List.length).sum + sep.length * (l.length - 1) := by
  induction l with
  | nil => simp [joinSep]
  | cons a t ih =>
    cases t with
    | nil => simp [joinSep]
    | cons b t₂ =>
      simp only [joinSep, List.length_append, List.map_cons, List.sum_cons,
        List.length_cons, Nat.add_sub_cancel, Nat.mul_succ] at ih ⊢
      omega

lemma joinSep_mem {α : Type} {sep : List α} {l : List (List α)} {x : α}
    (h : x ∈ joinSep sep l) : x ∈ sep ∨ ∃ a ∈ l, x ∈ a := by
  induction l with
  | nil => simp [joinSep] at h
  | cons a t ih =>
    cases t with
    | nil =>
      simp only [joinSep] at h
      exact Or.inr ⟨a, by simp, h⟩
    | cons b t₂ =>
      simp only [joinSep, List.mem_append] at h
      rcases h with (h | h) | h
      · exact Or.inr ⟨a, by simp, h⟩
      · exact Or.inl h
      · rcases ih h with h | ⟨c, hc, hx⟩
        · exact Or.inl h
        · exact Or.inr ⟨c, by simp [hc], hx⟩

lemma sum_map_sub_one (l : List Nat) (h : ∀ w ∈ l, 2 ≤ w) :
    (l.map fun w => w - 1).sum = (l.map fun w => w - 2).sum + l.length := by
  induction l with
  | nil => simp
  | cons a t ih =>
    have ha := h a (by simp)
    have := ih fun x hx => h x (by simp [hx])
    simp only [List.map_cons, List.sum_cons, List.length_cons]
    omega

lemma sum_map_add_one (l : List Nat) (f : Nat → Nat) :
    (l.map fun w => f w + 1).sum = (l.map f).sum + l.length := by
  induction l with
  | nil => simp
  | cons a t ih => simp only [List.map_cons, List.sum_cons, List.length_cons]; omega

lemma top_go_eq (ws : List Nat) (acc : RStr) (h : ∀ w ∈ ws, 2 ≤ w) :
    top_go ws acc =
      some (acc ++ (ws.map fun w => '┳' :: List.replicate (w - 2) '━').flatten ++ ['┓']) := by
  induction ws generalizing acc with
  | nil => simp [top_go]
  | cons w t ih =>
    have hw : ¬ w < 2 := by have := h w (by simp); omega
    rw [top_go, if_neg hw, ih _ fun x hx => h x (by simp [hx])]
    simp [List.append_assoc]

lemma bottom_go_eq (ws : List Nat) (acc : RStr) (h : ∀ w ∈ ws, 2 ≤ w) :
    bottom_go ws acc =
      some (acc ++ (ws.map fun w => '┻' :: List.replicate (w - 2) '━').flatten ++ ['┛']) := by
  induction ws generalizing acc with
  | nil => simp [bottom_go]
  | cons w t ih =>
    have hw : ¬ w < 2 := by have := h w (by simp); omega
    rw [bottom_go, if_neg hw, ih _ fun x hx => h x (by simp [hx])]
    simp [List.append_assoc]

lemma generate_top_string_eq (g : GridSizes) (hne : g.widths ≠ [])
    (h : ∀ w ∈ g.widths, 2 ≤ w) :
    generate_top_string g = some (specTop g.widths) := by
  rcases hw : g.widths with _ | ⟨w, ws⟩
  · exact absurd hw hne
  · rw [hw] at h
    have h₂ : ¬ w < 2 := by have := h w (by simp); omega
    rw [generate_top_string, hw]
    simp only [if_neg h₂]
    rw [top_go_eq _ _ fun x hx => h x (by simp [hx])]
    simp [specTop, joinSep_cons, List.map_map, Function.comp_def, List.append_assoc]

lemma generate_bottom_string_eq (g : GridSizes) (hne : g.widths ≠ [])
    (h : ∀ w ∈ g.widths, 2 ≤ w) :
    generate_bottom_string g = some (specBottom g.widths) := by
  rcases hw : g.widths with _ | ⟨w, ws⟩
  · exact absurd hw hne
  · rw [hw] at h
    have h₂ : ¬ w < 2 := by have := h w (by simp); omega
    rw [generate_bottom_string, hw]
    simp only [if_neg h₂]
    rw [bottom_go_eq _ _ fun x hx => h x (by simp [hx])]
    simp [specBottom, joinSep_cons, List.map_map, Function.comp_def, List.append_assoc]

lemma unit_go_eq (ws : List Nat) (acc : RStr) (h : ∀ w ∈ ws, 2 ≤ w) :
    unit_go ws acc =
      some (acc ++ (ws.map fun w => List.replicate (w - 2) ' ' ++ ['┃']).flatten) := by
  induction ws generalizing acc with
  | nil => simp [unit_go]
  | cons w t ih =>
    have hw : ¬ w < 2 := by have := h w (by simp); omega
    rw [unit_go, if_neg hw, ih _ fun x hx => h x (by simp [hx])]
    simp [List.append_assoc]

lemma get_unit_columns_eq (g : GridSizes) (h : ∀ w ∈ g.widths, 2 ≤ w) :
    get_unit_columns g = some (specInterior g.widths) := by
  rw [get_unit_columns, unit_go_eq _ _ h]
  simp [specInterior]

lemma generate_columns_eq (g : GridSizes) (ch : Nat) (h : ∀ w ∈ g.widths, 2 ≤ w)
    (hc : 2 ≤ ch) :
    generate_columns g ch = some (List.replicate (ch - 2) (specInterior g.widths)) := by
  rw [generate_columns, if_neg (by omega), get_unit_columns_eq g h]

lemma sep_go_eq (l : List Nat) (acc : RStr) (h : ∀ w ∈ l, 2 ≤ w) (hne : l ≠ []) :
    sep_go l acc =
      some (acc ++ joinSep ['╋'] (l.map fun w => List.replicate (w - 2) '━') ++ ['┫']) := by
  induction l generalizing acc with
  | nil => exact absurd rfl hne
  | cons w t ih =>
    have hw : ¬ w < 2 := by have := h w (by simp); omega
    cases t with
    | nil => simp [sep_go, if_neg hw, joinSep]
    | cons v t₂ =>
      rw [sep_go, if_neg hw, ih _ (fun x hx => h x (by simp [hx])) (by simp)]
      simp [joinSep, List.append_assoc]

lemma get_column_seperator_eq (g : GridSizes) (hne : g.widths ≠ [])
    (h : ∀ w ∈ g.widths, 2 ≤ w) :
    get_column_seperator g = some (specSep g.widths) := by
  rcases hw : g.widths with _ | ⟨w, ws⟩
  · exact absurd hw hne
  · rw [hw] at h
    simp only [get_column_seperator, hw]
    rw [sep_go_eq _ _ h (by simp)]
    simp [specSep]

lemma table_body_go_eq (g : GridSizes) (sep : RStr) (hs : List Nat)
    (hw : ∀ w ∈ g.widths, 2 ≤ w) (hne : hs ≠ []) (hh : ∀ h ∈ hs, 2 ≤ h) :
    table_body_go g sep hs =
      some (joinSep [sep] (hs.map fun h => List.replicate (h - 2) (specInterior g.widths))) := by
  induction hs with
  | nil => exact absurd rfl hne
  | cons a t ih =>
    have ha : 2 ≤ a := hh a (by simp)
    cases t with
    | nil => simp [table_body_go, generate_columns_eq g a hw ha, joinSep]
    | cons b t₂ =>
      rw [table_body_go, generate_columns_eq g a hw ha,
        ih (by simp) fun x hx => hh x (by simp [hx])]
      simp [joinSep]

lemma to_table_eq (g : GridSizes) (hwne : g.widths ≠ []) (hhne : g.heights ≠ [])
    (h2w : ∀ w ∈ g.widths, 2 ≤ w) (h2h : ∀ h ∈ g.heights, 2 ≤ h) :
    g.to_table = some (specTable g) := by
  rcases hh : g.heights with _ | ⟨h, hs⟩
  · exact absurd hh hhne
  · rw [hh] at h2h
    simp only [GridSizes.to_table, generate_top_string_eq g hwne h2w, hh,
      get_column_seperator_eq g hwne h2w,
      table_body_go_eq g (specSep g.widths) (h :: hs) h2w (by simp) h2h,
      generate_bottom_string_eq g hwne h2w]
    simp [specTable, hh]

lemma specTop_length (widths : List Nat) (hne : widths ≠ [])
    (h2 : ∀ w ∈ widths, 2 ≤ w) :
    (specTop widths).length = (widths.map fun w => w - 1).sum + 1 := by
  have hlen : 1 ≤ widths.length := List.length_pos.mpr hne
  have hsum := sum_map_sub_one widths h2
  simp only [specTop, List.length_append, joinSep_length, List.map_map,
    List.length_cons, List.length_nil, List.length_map]
  have : (List.map (List.length ∘ fun w => List.replicate (w - 2) '━') widths) =
      widths.map fun w => w - 2 := by
    simp [Function.comp_def]
  rw [this]
  omega

lemma specBottom_length (widths : List Nat) (hne : widths ≠ [])
    (h2 : ∀ w ∈ widths, 2 ≤ w) :
    (specBottom widths).length = (widths.map fun w => w - 1).sum + 1 := by
  have hlen : 1 ≤ widths.length := List.length_pos.mpr hne
  have hsum := sum_map_sub_one widths h2
  simp only [specBottom, List.length_append, joinSep_length, List.map_map,
    List.length_cons, List.length_nil, List.length_map]
  have : (List.map (List.length ∘ fun w => List.replicate (w - 2) '━') widths) =
      widths.map fun w => w - 2 := by
    simp [Function.comp_def]
  rw [this]
  omega

lemma specSep_length (widths : List Nat) (hne : widths ≠ [])
    (h2 : ∀ w ∈ widths, 2 ≤ w) :
    (specSep widths).length = (widths.map fun w => w - 1).sum + 1 := by
  have hlen : 1 ≤ widths.length := List.length_pos.mpr hne
  have hsum := sum_map_sub_one widths h2
  simp only [specSep, List.length_append, joinSep_length, List.map_map,
    List.length_cons, List.length_nil, List.length_map]
  have : (List.map (List.length ∘ fun w => List.replicate (w - 2) '━') widths) =
      widths.map fun w => w - 2 := by
    simp [Function.comp_def]
  rw [this]
  omega

lemma specInterior_length (widths : List Nat) (h2 : ∀ w ∈ widths, 2 ≤ w) :
    (specInterior widths).length = (widths.map fun w => w - 1).sum + 1 := by
  have hsum := sum_map_sub_one widths h2
  simp only [specInterior, List.length_cons, List.length_flatten, List.map_map]
  have : (List.map (List.length ∘ fun w => List.replicate (w - 2) ' ' ++ ['┃']) widths) =
      widths.map fun w => w - 2 + 1 := by
    simp [Function.comp_def]
  rw [this, sum_map_add_one]
  omega

lemma specTable_length (g : GridSizes) (hhne : g.heights ≠ [])
    (h2h : ∀ h ∈ g.heights, 2 ≤ h) :
    (specTable g).length = (g.heights.map fun h => h - 1).sum + 1 := by
  have hlen : 1 ≤ g.heights.length := List.length_pos.mpr hhne
  have hsum := sum_map_sub_one g.heights h2h
  simp only [specTable, List.length_append, joinSep_length, List.map_map,
    List.length_cons, List.length_nil, List.length_map]
  have : (List.map (List.length ∘ fun h => List.replicate (h - 2) (specInterior g.widths))
      g.heights) = g.heights.map fun h => h - 2 := by
    simp [Function.comp_def]
  rw [this]
  omega

lemma specTable_mem_length (g : GridSizes) (hwne : g.widths ≠ [])
    (h2w : ∀ w ∈ g.widths, 2 ≤ w) :
    ∀ l ∈ specTable g, l.length = (g.widths.map fun w => w - 1).sum + 1 := by
  intro l hl
  simp only [specTable, List.mem_append, List.mem_cons, List.not_mem_nil,
    or_false, List.mem_singleton] at hl
  rcases hl with (hl | hl) | hl
  · rw [hl]; exact specTop_length g.widths hwne h2w
  · rcases joinSep_mem hl with hs | ⟨a, ha, hx⟩
    · rw [List.mem_singleton] at hs
      rw [hs]; exact specSep_length g.widths hwne h2w
    · simp only [List.mem_map] at ha
      obtain ⟨hgt, _, rfl⟩ := ha
      rw [List.eq_of_mem_replicate hx]
      exact specInterior_length g.widths h2w
  · rw [hl]; exact specBottom_length g.widths hwne h2w

lemma specTop_chars (widths : List Nat) :
    ∀ c ∈ specTop widths, c ∈ ['┏', '━', '┳', '┓'] := by
  intro c hc
  simp only [specTop, List.mem_append, List.mem_singleton] at hc
  rcases hc with (hc | hc) | hc
  · simp [hc]
  · rcases joinSep_mem hc with hs | ⟨a, ha, hx⟩
    · simp only [List.mem_singleton] at hs; simp [hs]
    · simp only [List.mem_map] at ha
      obtain ⟨w, _, rfl⟩ := ha
      rw [List.eq_of_mem_replicate hx]; simp
  · simp [hc]

lemma specBottom_chars (widths : List Nat) :
    ∀ c ∈ specBottom widths, c ∈ ['┗', '━', '┻', '┛'] := by
  intro c hc
  simp only [specBottom, List.mem_append, List.mem_singleton] at hc
  rcases hc with (hc | hc) | hc
  · simp [hc]
  · rcases joinSep_mem hc with hs | ⟨a, ha, hx⟩
    · simp only [List.mem_singleton] at hs; simp [hs]
    · simp only [List.mem_map] at ha
      obtain ⟨w, _, rfl⟩ := ha
      rw [List.eq_of_mem_replicate hx]; simp
  · simp [hc]

/-- C1: for every GridSizes with non-empty widths and heights, all at
least 2, `to_table` succeeds and returns exactly the described layout: a
top border of `┏`, per-column bars joined by `┳`, closed by `┓`; per row
`heights[r] - 2` interior lines of `┃` with per-column spaces and `┃`;
the `┣ ╋ ┫` separator between consecutive rows only; a mirrored bottom
border; in total `sum(heights[i] - 1) + 1` lines, each of character
length `sum(widths[i] - 1) + 1`, the first and last lines drawn solely
from the border character sets. -/
theorem grid_to_table_matches_spec (g : GridSizes) (hwne : g.widths ≠ [])
    (hhne : g.heights ≠ []) (h2w : ∀ w ∈ g.widths, 2 ≤ w)
    (h2h : ∀ h ∈ g.heights, 2 ≤ h) :
    g.to_table = some (specTable g) ∧
    (specTable g).length = (g.heights.map fun h => h - 1).sum + 1 ∧
    (∀ l ∈ specTable g, l.length = (g.widths.map fun w => w - 1).sum + 1) ∧
    (specTable g).head? = some (specTop g.widths) ∧
    (specTable g).getLast? = some (specBottom g.widths) ∧
    (∀ c ∈ specTop g.widths, c ∈ ['┏', '━', '┳', '┓']) ∧
    (∀ c ∈ specBottom g.widths, c ∈ ['┗', '━', '┻', '┛']) := by
  refine ⟨to_table_eq g hwne hhne h2w h2h, specTable_length g hhne h2h,
    specTable_mem_length g hwne h2w, rfl, ?_, specTop_chars g.widths,
    specBottom_chars g.widths⟩
  show (([specTop g.widths] ++ _) ++ [specBottom g.widths]).getLast? = _
  rw [List.getLast?_concat]

/-- Witness for C1 at `widths = [3, 4, 2]`, `heights = [3, 5]`, the
worked example of the source documentation. -/
theorem grid_to_table_matches_spec_witness :
    (GridSizes.mk [3, 4, 2] [3, 5]).widths ≠ [] ∧
    (GridSizes.mk [3, 4, 2] [3, 5]).heights ≠ [] ∧
    ((GridSizes.mk [3, 4, 2] [3, 5]).to_table =
      some (specTable (GridSizes.mk [3, 4, 2] [3, 5])) ∧
    (specTable (GridSizes.mk [3, 4, 2] [3, 5])).length =
      (((GridSizes.mk [3, 4, 2] [3, 5]).heights.map fun h => h - 1).sum + 1) ∧
    (∀ l ∈ specTable (GridSizes.mk [3, 4, 2] [3, 5]),
      l.length = (((GridSizes.mk [3, 4, 2] [3, 5]).widths.map fun w => w - 1).sum + 1)) ∧
    (specTable (GridSizes.mk [3, 4, 2] [3, 5])).head? =
      some (specTop (GridSizes.mk [3, 4, 2] [3, 5]).widths) ∧
    (specTable (GridSizes.mk [3, 4, 2] [3, 5])).getLast? =
      some (specBottom (GridSizes.mk [3, 4, 2] [3, 5]).widths) ∧
    (∀ c ∈ specTop (GridSizes.mk [3, 4, 2] [3, 5]).widths, c ∈ ['┏', '━', '┳', '┓']) ∧
    (∀ c ∈ specBottom (GridSizes.mk [3, 4, 2] [3, 5]).widths,
      c ∈ ['┗', '━', '┻', '┛'])) :=
  ⟨by decide, by decide,
    grid_to_table_matches_spec (GridSizes.mk [3, 4, 2] [3, 5])
      (by decide) (by decide) (by decide) (by decide)⟩

lemma top_go_none (ws : List Nat) (acc : RStr) (h : ∃ w ∈ ws, w < 2) :
    top_go ws acc = none := by
  induction ws generalizing acc with
  | nil => simp at h
  | cons a t ih =>
    by_cases ha : a < 2
    · rw [top_go, if_pos ha]
    · rw [top_go, if_neg ha]
      obtain ⟨w, hw, hlt⟩ := h
      rcases List.mem_cons.mp hw with rfl | hw
      · exact absurd hlt ha
      · exact ih _ ⟨w, hw, hlt⟩

lemma generate_top_string_none (g : GridSizes)
    (h : g.widths = [] ∨ ∃ w ∈ g.widths, w < 2) :
    generate_top_string g = none := by
  rcases hw : g.widths with _ | ⟨w, ws⟩
  · rw [generate_top_string, hw]
  · rcases h with h | ⟨v, hv, hlt⟩
    · simp [hw] at h
    · rw [hw] at hv
      simp only [generate_top_string, hw]
      by_cases h₂ : w < 2
      · rw [if_pos h₂]
      · rw [if_neg h₂]
        rcases List.mem_cons.mp hv with rfl | hv
        · exact absurd hlt h₂
        · exact top_go_none _ _ ⟨v, hv, hlt⟩

lemma table_body_go_none (g : GridSizes) (sep : RStr) (hs : List Nat)
    (hbad : ∃ h ∈ hs, h < 2) : table_body_go g sep hs = none := by
  induction hs with
  | nil => simp at hbad
  | cons a t ih =>
    cases t with
    | nil =>
      obtain ⟨h, hh, hlt⟩ := hbad
      simp only [List.mem_singleton] at hh
      subst hh
      rw [table_body_go, generate_columns, if_pos hlt]
    | cons b t₂ =>
      by_cases ha : a < 2
      · rw [table_body_go, generate_columns, if_pos ha]
      · obtain ⟨h, hh, hlt⟩ := hbad
        rcases List.mem_cons.mp hh with rfl | hh
        · exact absurd hlt ha
        · rw [table_body_go, ih ⟨h, hh, hlt⟩]
          cases generate_columns g a <;> rfl

/-- C7: a sub-2 entry in either size list, or an empty size list, makes
`to_table` fail (the arithmetic underflow or out-of-range panic of the
source), producing no table output: the result is `none`, never a
clamped or malformed grid. -/
theorem to_table_fails_on_bad_sizes (g : GridSizes)
    (h : g.widths = [] ∨ g.heights = [] ∨
      (∃ w ∈ g.widths, w < 2) ∨ (∃ k ∈ g.heights, k < 2)) :
    g.to_table = none := by
  by_cases hwbad : g.widths = [] ∨ ∃ w ∈ g.widths, w < 2
  · rw [GridSizes.to_table, generate_top_string_none g hwbad]
  · push_neg at hwbad
    obtain ⟨hwne, h2w⟩ := hwbad
    rcases h with h | h | h | h
    · exact absurd h hwne
    · simp only [GridSizes.to_table, generate_top_string_eq g hwne h2w, h]
    · obtain ⟨w, hw, hlt⟩ := h
      exact absurd hlt (Nat.not_lt.mpr (h2w w hw))
    · have hhne : g.heights ≠ [] := by
        obtain ⟨k, hk, _⟩ := h
        exact List.ne_nil_of_mem hk
      rcases hh : g.heights with _ | ⟨a, t⟩
      · exact absurd hh hhne
      · rw [hh] at h
        simp only [GridSizes.to_table, generate_top_string_eq g hwne h2w, hh,
          get_column_seperator_eq g hwne h2w,
          table_body_go_none g (specSep g.widths) (a :: t) h]

/-- Witness for C7 at the should-panic example of the source
documentation: `widths = [1, 4, 2]`, `heights = [3, 5]`. -/
theorem to_table_fails_on_bad_sizes_witness :
    ((GridSizes.mk [1, 4, 2] [3, 5]).widths = [] ∨
      (GridSizes.mk [1, 4, 2] [3, 5]).heights = [] ∨
      (∃ w ∈ (GridSizes.mk [1, 4, 2] [3, 5]).widths, w < 2) ∨
      (∃ k ∈ (GridSizes.mk [1, 4, 2] [3, 5]).heights, k < 2)) ∧
    (GridSizes.mk [1, 4, 2] [3, 5]).to_table = none :=
  ⟨by decide, to_table_fails_on_bad_sizes (GridSizes.mk [1, 4, 2] [3, 5]) (by decide)⟩

lemma foldl_max_eq {α : Type} (f : α → Nat) (l : List α) (a : Nat) :
    l.foldl (fun m x => max m (f x)) a = max a (listMax (l.map f)) := by
  induction l generalizing a with
  | nil => simp [listMax]
  | cons x t ih =>
    simp only [List.foldl_cons, List.map_cons, listMax, List.foldr_cons]
    rw [ih]
    simp only [listMax]
    omega

lemma listMax_map_add_two (l : List Nat) (hne : l ≠ []) :
    listMax (l.map fun x => x + 2) = listMax l + 2 := by
  induction l with
  | nil => exact absurd rfl hne
  | cons x t ih =>
    cases t with
    | nil => simp [listMax]
    | cons y t₂ =>
      have := ih (by simp)
      simp only [List.map_cons, listMax, List.foldr_cons] at this ⊢
      omega

lemma get_string_width_eq (s : RStr) :
    get_string_width s = listMax ((splitLines s).map List.length) := by
  rw [get_string_width, foldl_max_eq]
  omega

lemma get_max_widths_eq (U : Nat) (contents : List (List RStr))
    (hne : contents ≠ []) :
    get_max_widths U contents = (List.range U).map fun j =>
      2 + listMax (contents.map fun row => get_string_width (row.getD j [])) := by
  apply List.map_congr_left
  intro j _
  rw [foldl_max_eq]
  have h₁ : (contents.map fun row => get_string_width (row.getD j []) + 2) =
      (contents.map fun row => get_string_width (row.getD j [])).map fun x => x + 2 := by
    simp [List.map_map, Function.comp_def]
  rw [h₁, listMax_map_add_two _ (by simpa using hne)]
  omega

lemma get_max_heights_eq (U : Nat) (contents : List (List RStr)) (hU : 0 < U)
    (hrect : ∀ row ∈ contents, row.length = U) :
    get_max_heights U contents = contents.map fun row =>
      2 + listMax (row.map get_string_height) := by
  apply List.map_congr_left
  intro row hrow
  have htake : row.take U = row := List.take_of_length_le (by rw [hrect row hrow])
  have hrne : row ≠ [] := by
    intro hcon
    have := hrect row hrow
    rw [hcon] at this
    simp at this
    omega
  rw [htake, foldl_max_eq]
  have h₁ : (row.map fun cell => get_string_height cell + 2) =
      (row.map get_string_height).map fun x => x + 2 := by
    simp [List.map_map, Function.comp_def]
  rw [h₁, listMax_map_add_two _ (by simpa using hrne)]
  omega

/-- C2 (amended with at least one column): for every non-empty
rectangular Cell Table of arity `U ≥ 1`, the inferred width of each
column is 2 plus the maximum cell width of that column over all rows,
the inferred height of each row is 2 plus the maximum cell height of
that row over all columns, a cell height being its line-feed count plus
one and a cell width the maximum over its lines of the character (not
byte) count of the line. -/
theorem dimension_inference_matches_spec (U : Nat) (contents : List (List RStr))
    (hU : 0 < U) (hne : contents ≠ []) (hrect : ∀ row ∈ contents, row.length = U) :
    get_max_widths U contents = ((List.range U).map fun j =>
      2 + listMax (contents.map fun row => get_string_width (row.getD j []))) ∧
    get_max_heights U contents = (contents.map fun row =>
      2 + listMax (row.map get_string_height)) ∧
    (∀ s : RStr, get_string_height s = s.count '\n' + 1) ∧
    (∀ s : RStr, get_string_width s = listMax ((splitLines s).map List.length)) :=
  ⟨get_max_widths_eq U contents hne, get_max_heights_eq U contents hU hrect,
    fun _ => rfl, get_string_width_eq⟩

/-- Witness for C2 on the three-column worked example of the source
documentation. -/
theorem dimension_inference_matches_spec_witness :
    (0 < 2 ∧ (["ab\ncd".toList, "é".toList] :: [["x".toList, "日本語".toList]]) ≠ [] ∧
      (∀ row ∈ (["ab\ncd".toList, "é".toList] :: [["x".toList, "日本語".toList]]),
        row.length = 2)) ∧
    get_max_widths 2 (["ab\ncd".toList, "é".toList] :: [["x".toList, "日本語".toList]]) =
      ((List.range 2).map fun j => 2 + listMax
        ((["ab\ncd".toList, "é".toList] :: [["x".toList, "日本語".toList]]).map
          fun row => get_string_width (row.getD j []))) := by
  refine ⟨⟨by decide, by decide, by decide⟩, ?_⟩
  exact (dimension_inference_matches_spec 2 _ (by decide) (by decide) (by decide)).1

/-- Counterexample for C2 as frozen: the non-empty rectangular Cell
Table of arity 0 whose single row has no cells; the inferred height of
the row is 0, not 2 plus any maximum. -/
theorem dimension_inference_zero_arity_counterexample :
    ([[]] : List (List RStr)) ≠ [] ∧
    (∀ row ∈ ([[]] : List (List RStr)), row.length = 0) ∧
    get_max_heights 0 [[]] = [0] ∧
    get_max_heights 0 [[]] ≠
      (([[]] : List (List RStr)).map fun row =>
        2 + listMax (row.map get_string_height)) := by
  refine ⟨by decide, by decide, rfl, by decide⟩

lemma get_max_widths_ge_two (U : Nat) (contents : List (List RStr))
    (hne : contents ≠ []) : ∀ w ∈ get_max_widths U contents, 2 ≤ w := by
  intro w hw
  simp only [get_max_widths, List.mem_map] at hw
  obtain ⟨j, _, rfl⟩ := hw
  rw [foldl_max_eq]
  have h₁ : (contents.map fun row => get_string_width (row.getD j []) + 2) =
      (contents.map fun row => get_string_width (row.getD j [])).map fun x => x + 2 := by
    simp [List.map_map, Function.comp_def]
  rw [h₁, listMax_map_add_two _ (by simpa using hne)]
  omega

lemma get_max_heights_ge_two (U : Nat) (contents : List (List RStr)) (hU : 0 < U)
    (hrect : ∀ row ∈ contents, row.length = U) :
    ∀ h ∈ get_max_heights U contents, 2 ≤ h := by
  intro h hh
  simp only [get_max_heights, List.mem_map] at hh
  obtain ⟨row, hrow, rfl⟩ := hh
  have htake : row.take U = row := List.take_of_length_le (by rw [hrect row hrow])
  have hrne : row ≠ [] := by
    intro hcon
    have := hrect row hrow
    rw [hcon] at this
    simp at this
    omega
  rw [htake, foldl_max_eq]
  have h₁ : (row.map fun cell => get_string_height cell + 2) =
      (row.map get_string_height).map fun x => x + 2 := by
    simp [List.map_map, Function.comp_def]
  rw [h₁, listMax_map_add_two _ (by simpa using hrne)]
  omega

lemma get_max_widths_length (U : Nat) (contents : List (List RStr)) :
    (get_max_widths U contents).length = U := by
  simp [get_max_widths]

lemma get_max_heights_length (U : Nat) (contents : List (List RStr)) :
    (get_max_heights U contents).length = contents.length := by
  simp [get_max_heights]

/-- C6 (amended with at least one column): for every non-empty
rectangular Cell Table of arity `U ≥ 1`, the inferred widths and heights
are all at least 2, so the skeleton builder succeeds and its sub-2-size
contract-violation failure is unreachable through
`generate_string_grid`. -/
theorem inferred_sizes_ge_two (U : Nat) (contents : List (List RStr)) (hU : 0 < U)
    (hne : contents ≠ []) (hrect : ∀ row ∈ contents, row.length = U) :
    (∀ w ∈ get_max_widths U contents, 2 ≤ w) ∧
    (∀ h ∈ get_max_heights U contents, 2 ≤ h) ∧
    (GridSizes.mk (get_max_widths U contents) (get_max_heights U contents)).to_table ≠
      none := by
  refine ⟨get_max_widths_ge_two U contents hne,
    get_max_heights_ge_two U contents hU hrect, ?_⟩
  have hwlen := get_max_widths_length U contents
  have hhlen := get_max_heights_length U contents
  have hclen : 0 < contents.length := List.length_pos.mpr hne
  rw [to_table_eq _
    (by intro hcon; simp only at hcon; rw [hcon] at hwlen; simp at hwlen; omega)
    (by intro hcon; simp only at hcon; rw [hcon] at hhlen; simp at hhlen; omega)
    (get_max_widths_ge_two U contents hne)
    (get_max_heights_ge_two U contents hU hrect)]
  simp

/-- Witness for C6 on a concrete one-column two-row table. -/
theorem inferred_sizes_ge_two_witness :
    (0 < 1 ∧ ([["a".toList], ["bc".toList]] : List (List RStr)) ≠ [] ∧
      (∀ row ∈ ([["a".toList], ["bc".toList]] : List (List RStr)), row.length = 1)) ∧
    (∀ w ∈ get_max_widths 1 [["a".toList], ["bc".toList]], 2 ≤ w) ∧
    (∀ h ∈ get_max_heights 1 [["a".toList], ["bc".toList]], 2 ≤ h) ∧
    (GridSizes.mk (get_max_widths 1 [["a".toList], ["bc".toList]])
      (get_max_heights 1 [["a".toList], ["bc".toList]])).to_table ≠ none :=
  ⟨⟨by decide, by decide, by decide⟩,
    inferred_sizes_ge_two 1 [["a".toList], ["bc".toList]]
      (by decide) (by decide) (by decide)⟩

/-- Counterexample for C6 as frozen: at arity 0 the single inferred
height of the non-empty rectangular table `[[]]` is 0, below 2. -/
theorem inferred_sizes_zero_arity_counterexample :
    ([[]] : List (List RStr)) ≠ [] ∧
    (∀ row ∈ ([[]] : List (List RStr)), row.length = 0) ∧
    ¬ (∀ h ∈ get_max_heights 0 [[]], 2 ≤ h) := by
  refine ⟨by decide, by decide, by decide⟩

/-- C8: an empty Cell Table (zero rows) short-circuits to exactly the
two-line minimal box, for every arity, before dimension inference or the
skeleton builder are consulted. -/
theorem generate_string_grid_empty (U : Nat) :
    generate_string_grid U [] = some ["┏┓".toList, "┗┛".toList] := rfl

/-- C10: the map adapters emit the header row even for zero entries, so
an empty map renders as the three-line header table rather than the
two-line minimal box. -/
theorem empty_map_to_table :
    map_to_table [] = some ["┏━━━━━┳━━━━━━━┓".toList, "┃Keys:┃Values:┃".toList,
      "┗━━━━━┻━━━━━━━┛".toList] ∧
    map_to_table [] ≠ some ["┏┓".toList, "┗┛".toList] := by
  refine ⟨by decide, by decide⟩

/-! Spec-side description of the stylizer output: the numeric codes of
the set attributes in the fixed order bold, faint, italic, underline,
strikethrough, blink, foreground color, background color, joined by
semicolons with no trailing separator. -/

/-- Code contributed by the blink speed, per the spec. -/
def specBlinkCode : StringBlinkSpeed → List RStr
  | StringBlinkSpeed.None => []
  | StringBlinkSpeed.Slow => [['5']]
  | StringBlinkSpeed.Fast => [['6']]

/-- Code contributed by the foreground color, per the spec. -/
def specColorCode : StringColor → List RStr
  | StringColor.Black => [['3', '0']]
  | StringColor.Red => [['3', '1']]
  | StringColor.Green => [['3', '2']]
  | StringColor.Yellow => [['3', '3']]
  | StringColor.Blue => [['3', '4']]
  | StringColor.Magenta => [['3', '5']]
  | StringColor.Cyan => [['3', '6']]
  | StringColor.White => [['3', '7']]
  | StringColor.Gray => [['9', '0']]
  | StringColor.Pink => [['9', '1']]
  | StringColor.Lime => [['9', '2']]
  | StringColor.BrightYellow => [['9', '3']]
  | StringColor.LightBlue => [['9', '4']]
  | StringColor.LightMagenta => [['9', '5']]
  | StringColor.LightCyan => [['9', '6']]
  | StringColor.BrightWhite => [['9', '7']]
  | StringColor.None => []

/-- Code contributed by the background color, per the spec. -/
def specBackgroundCode : StringColor → List RStr
  | StringColor.Black => [['4', '0']]
  | StringColor.Red => [['4', '1']]
  | StringColor.Green => [['4', '2']]
  | StringColor.Yellow => [['4', '3']]
  | StringColor.Blue => [['4', '4']]
  | StringColor.Magenta => [['4', '5']]
  | StringColor.Cyan => [['4', '6']]
  | StringColor.White => [['4', '7']]
  | StringColor.Gray => [['1', '0', '0']]
  | StringColor.Pink => [['1', '0', '1']]
  | StringColor.Lime => [['1', '0', '2']]
  | StringColor.BrightYellow => [['1', '0', '3']]
  | StringColor.LightBlue => [['1', '0', '4']]
  | StringColor.LightMagenta => [['1', '0', '5']]
  | StringColor.LightCyan => [['1', '0', '6']]
  | StringColor.BrightWhite => [['1', '0', '7']]
  | StringColor.None => []

/-- Codes of the set attributes in the fixed order of the spec. -/
def spec_codes (st : StringStyle) : List RStr :=
  (if st.bold then [['1']] else []) ++
  (if st.faint then [['2']] else []) ++
  (if st.italicized then [['3']] else []) ++
  (if st.underline then [['4']] else []) ++
  (if st.strikethrough then [['9']] else []) ++
  specBlinkCode st.blink ++
  specColorCode st.color ++
  specBackgroundCode st.background_color

/-- Stylizer output as the spec describes it: the input unchanged for
the default style, otherwise `ESC [`, the semicolon-joined codes, `m`,
the text, and the reset suffix `ESC [ 0 m`. -/
def spec_format (s : RStr) (st : StringStyle) : RStr :=
  if st = StringStyle.default then s
  else ['\x1b', '['] ++ joinSep [';'] (spec_codes st) ++ ['m'] ++ s ++
    ['\x1b', '[', '0', 'm']

/-- Appends a terminating semicolon to every code and concatenates. -/
def semiTerm (L : List RStr) : RStr := (L.map fun c => c ++ [';']).flatten

lemma semiTerm_append (A B : List RStr) :
    semiTerm (A ++ B) = semiTerm A ++ semiTerm B := by
  simp [semiTerm]

lemma semiTerm_ne_nil (L : List RStr) (h : L ≠ []) : semiTerm L ≠ [] := by
  cases L with
  | nil => exact absurd rfl h
  | cons a t => simp [semiTerm]

lemma dropLast_semiTerm (L : List RStr) (h : L ≠ []) :
    (semiTerm L).dropLast = joinSep [';'] L := by
  induction L with
  | nil => exact absurd rfl h
  | cons a t ih =>
    cases t with
    | nil => simp [semiTerm, joinSep, List.dropLast_concat]
    | cons b t₂ =>
      have hne : semiTerm (b :: t₂) ≠ [] := semiTerm_ne_nil _ (by simp)
      calc (semiTerm (a :: b :: t₂)).dropLast
          = ((a ++ [';']) ++ semiTerm (b :: t₂)).dropLast := by
            simp [semiTerm]
        _ = (a ++ [';']) ++ (semiTerm (b :: t₂)).dropLast :=
            List.dropLast_append_of_ne_nil _ hne
        _ = a ++ [';'] ++ joinSep [';'] (b :: t₂) := by rw [ih (by simp)]
        _ = joinSep [';'] (a :: b :: t₂) := by simp [joinSep]

lemma blinkChunk_eq (b : StringBlinkSpeed) : blinkChunk b = semiTerm (specBlinkCode b) := by
  cases b <;> rfl

lemma colorChunk_eq (c : StringColor) : colorChunk c = semiTerm (specColorCode c) := by
  cases c <;> rfl

lemma backgroundChunk_eq (c : StringColor) :
    backgroundChunk c = semiTerm (specBackgroundCode c) := by
  cases c <;> rfl

lemma boolChunk_eq (b : Bool) (d : Char) :
    (if b then [d, ';'] else []) = semiTerm (if b then [[d]] else []) := by
  cases b <;> rfl

lemma spec_codes_eq_nil {st : StringStyle} (h : spec_codes st = []) :
    st = StringStyle.default := by
  obtain ⟨b, f, i, u, k, bl, c, bg⟩ := st
  simp only [spec_codes, List.append_eq_nil] at h
  obtain ⟨⟨⟨⟨⟨⟨⟨h₁, h₂⟩, h₃⟩, h₄⟩, h₅⟩, h₆⟩, h₇⟩, h₈⟩ := h
  have hb : b = false := by cases b with | false => rfl | true => simp at h₁
  have hf : f = false := by cases f with | false => rfl | true => simp at h₂
  have hi : i = false := by cases i with | false => rfl | true => simp at h₃
  have hu : u = false := by cases u with | false => rfl | true => simp at h₄
  have hk : k = false := by cases k with | false => rfl | true => simp at h₅
  have hbl : bl = StringBlinkSpeed.None := by
    cases bl
    · rfl
    · simp [specBlinkCode] at h₆
    · simp [specBlinkCode] at h₇ h₆
  have hc : c = StringColor.None := by
    cases c <;> first | rfl | simp [specColorCode] at h₇
  have hbg : bg = StringColor.None := by
    cases bg <;> first | rfl | simp [specBackgroundCode] at h₈
  subst hb hf hi hu hk hbl hc hbg
  rfl

/-- C9: `format_string` returns the input unchanged for the all-default
style, and otherwise wraps it as `ESC [` plus the numeric codes of the
set attributes, semicolon-separated in the fixed order bold, faint,
italic, underline, strikethrough, blink, foreground, background, unset
attributes omitted and no separator before the closing `m`, followed by
the text and the reset suffix `ESC [ 0 m`. -/
theorem format_string_matches_spec (s : RStr) (st : StringStyle) :
    format_string s st = spec_format s st := by
  by_cases hd : st = StringStyle.default
  · simp [format_string, spec_format, hd]
  · have hcodes : spec_codes st ≠ [] := fun hnil => hd (spec_codes_eq_nil hnil)
    have hsem : semiTerm (spec_codes st) ≠ [] := semiTerm_ne_nil _ hcodes
    simp only [format_string, spec_format, if_neg hd]
    rw [boolChunk_eq st.bold '1', boolChunk_eq st.faint '2',
      boolChunk_eq st.italicized '3', boolChunk_eq st.underline '4',
      boolChunk_eq st.strikethrough '9', blinkChunk_eq, colorChunk_eq,
      backgroundChunk_eq]
    have hjoin :
        (['\x1b', '['] ++ semiTerm (if st.bold then [['1']] else []) ++
          semiTerm (if st.faint then [['2']] else []) ++
          semiTerm (if st.italicized then [['3']] else []) ++
          semiTerm (if st.underline then [['4']] else []) ++
          semiTerm (if st.strikethrough then [['9']] else []) ++
          semiTerm (specBlinkCode st.blink) ++
          semiTerm (specColorCode st.color) ++
          semiTerm (specBackgroundCode st.background_color)) =
        ['\x1b', '['] ++ semiTerm (spec_codes st) := by
      simp only [spec_codes, semiTerm_append, List.append_assoc]
    rw [hjoin, List.dropLast_append_of_ne_nil _ hsem, dropLast_semiTerm _ hcodes]

lemma len_utf8_pos (c : Char) : 0 < len_utf8 c := by
  rw [len_utf8]
  split
  · omega
  · split
    · omega
    · split
      · omega
      · omega

lemma charPos_utf8Len (s : RStr) (n : Nat) (h : n ≤ s.length) :
    charPosOfByte s (utf8Len (s.take n)) = n := by
  induction s generalizing n with
  | nil =>
    simp only [List.length_nil, Nat.le_zero] at h
    subst h
    rfl
  | cons c cs ih =>
    cases n with
    | zero => rfl
    | succ m =>
      have hpos := len_utf8_pos c
      have hb : utf8Len ((c :: cs).take (m + 1)) =
          (len_utf8 c + utf8Len (cs.take m) - 1) + 1 := by
        simp only [List.take_succ_cons, utf8Len, List.map_cons, List.sum_cons]
        omega
      rw [hb, charPosOfByte]
      have harg : len_utf8 c + utf8Len (cs.take m) - 1 + 1 - len_utf8 c =
          utf8Len (cs.take m) := by omega
      rw [harg, ih m (by simpa using h)]
      omega

lemma map_string_index_some (s : RStr) (i : Nat) (h : i < s.length) :
    map_string_index s i = some (utf8Len (s.take i)) := if_pos h

lemma map_string_index_none (s : RStr) (i : Nat) (h : ¬ i < s.length) :
    map_string_index s i = none := if_neg h

lemma splitLines_ne_nil (s : RStr) : splitLines s ≠ [] := by
  cases s with
  | nil => simp [splitLines]
  | cons c cs =>
    rw [splitLines]
    split
    · simp
    · split
      · simp
      · simp

lemma splitLines_length (s : RStr) :
    (splitLines s).length = s.count '\n' + 1 := by
  induction s with
  | nil => rfl
  | cons c cs ih =>
    rw [splitLines]
    by_cases hc : c = '\n'
    · rw [if_pos hc, hc]
      simp only [List.length_cons, ih, List.count_cons]
      simp
    · rw [if_neg hc]
      rcases hs : splitLines cs with _ | ⟨l, ls⟩
      · exact absurd hs (splitLines_ne_nil cs)
      · rw [hs] at ih
        simp only [List.length_cons] at ih ⊢
        rw [List.count_cons]
        simp [hc, ih]

lemma splitLines_height (s : RStr) :
    (splitLines s).length = get_string_height s := splitLines_length s

lemma splitLines_no_newline (s : RStr) : ∀ l ∈ splitLines s, '\n' ∉ l := by
  induction s with
  | nil => simp [splitLines]
  | cons c cs ih =>
    intro l hl
    rw [splitLines] at hl
    by_cases hc : c = '\n'
    · rw [if_pos hc] at hl
      rcases List.mem_cons.mp hl with rfl | hl
      · simp
      · exact ih l hl
    · rw [if_neg hc] at hl
      rcases hs : splitLines cs with _ | ⟨t, ts⟩
      · exact absurd hs (splitLines_ne_nil cs)
      · rw [hs] at hl
        rcases List.mem_cons.mp hl with rfl | hl
        · intro hmem
          rcases List.mem_cons.mp hmem with h | h
          · exact hc h.symm
          · exact ih t (by rw [hs]; simp) h
        · exact ih l (by rw [hs]; simp [hl])

lemma listMax_ge (l : List Nat) : ∀ x ∈ l, x ≤ listMax l := by
  induction l with
  | nil => simp
  | cons a t ih =>
    intro x hx
    simp only [listMax, List.foldr_cons] at *
    rcases List.mem_cons.mp hx with rfl | hx
    · omega
    · have := ih x hx
      omega

lemma splitLines_self (l : RStr) (h : '\n' ∉ l) : splitLines l = [l] := by
  induction l with
  | nil => rfl
  | cons c cs ih =>
    have hc : ¬ c = '\n' := fun hcon => h (by simp [hcon])
    rw [splitLines, if_neg hc, ih fun hcon => h (by simp [hcon])]

lemma width_of_no_newline (l : RStr) (h : '\n' ∉ l) :
    get_string_width l = l.length := by
  rw [get_string_width, splitLines_self l h]
  simp

lemma mem_splitLines_width_le (s : RStr) (l : RStr) (h : l ∈ splitLines s) :
    l.length ≤ get_string_width s := by
  rw [get_string_width_eq]
  exact listMax_ge _ _ (List.mem_map.mpr ⟨l, h, rfl⟩)

lemma foldl_max_ge_mem {α : Type} (f : α → Nat) (l : List α) (a : α) (h : a ∈ l) :
    f a ≤ l.foldl (fun m x => max m (f x)) 0 := by
  rw [foldl_max_eq]
  have := listMax_ge (l.map f) (f a) (List.mem_map.mpr ⟨a, h, rfl⟩)
  omega

lemma replaced_dimension_go_eq (dims : List Nat) (coord acc : Nat)
    (h1 : ∀ d ∈ dims, 1 ≤ d) (h : coord < dims.length) :
    replaced_dimension_go acc dims coord =
      some (acc + ((dims.take coord).map fun d => d - 1).sum) := by
  induction dims generalizing coord acc with
  | nil => simp at h
  | cons d ds ih =>
    cases coord with
    | zero => simp [replaced_dimension_go]
    | succ k =>
      have hd : ¬ d < 1 := by have := h1 d (by simp); omega
      rw [replaced_dimension_go, if_neg (by omega), if_neg hd]
      simp only [Nat.add_sub_cancel]
      rw [ih k _ (fun e he => h1 e (by simp [he])) (by simpa using h)]
      simp only [List.take_succ_cons, List.map_cons, List.sum_cons]
      congr 1
      omega

lemma replaced_dimension_go_none (dims : List Nat) (coord acc : Nat)
    (h : dims.length ≤ coord) :
    replaced_dimension_go acc dims coord = none := by
  induction dims generalizing coord acc with
  | nil => rfl
  | cons d ds ih =>
    cases coord with
    | zero => simp at h
    | succ k =>
      by_cases hd : d < 1
      · rw [replaced_dimension_go, if_neg (by omega), if_pos hd]
      · rw [replaced_dimension_go, if_neg (by omega), if_neg hd]
        simp only [Nat.add_sub_cancel]
        exact ih k _ (by simpa using h)

lemma get_replaced_dimension_index_eq (dims : List Nat) (coord : Nat)
    (h1 : ∀ d ∈ dims, 1 ≤ d) (h : coord < dims.length) :
    get_replaced_dimension_index dims coord =
      some (1 + ((dims.take coord).map fun d => d - 1).sum) :=
  replaced_dimension_go_eq dims coord 1 h1 h

lemma get_replaced_dimension_index_none (dims : List Nat) (coord : Nat)
    (h : dims.length ≤ coord) :
    get_replaced_dimension_index dims coord = none :=
  replaced_dimension_go_none dims coord 1 h

lemma replace_line_eq (line ins : RStr) (xs : Nat)
    (h : xs + get_string_width ins < line.length) :
    replace_line line xs ins =
      some (line.take xs ++ ins ++ line.drop (xs + get_string_width ins)) := by
  have h₁ : xs < line.length := by omega
  simp only [replace_line, map_string_index_some _ _ h, map_string_index_some _ _ h₁]
  rw [replaceRangeBytes, charPos_utf8Len line xs (Nat.le_of_lt h₁),
    charPos_utf8Len line _ (Nat.le_of_lt h)]

lemma replace_line_none (line ins : RStr) (xs : Nat)
    (h : ¬ xs + get_string_width ins < line.length) :
    replace_line line xs ins = none := by
  simp only [replace_line, map_string_index_none _ _ h]

lemma replace_line_some_inv (line ins out : RStr) (xs : Nat)
    (h : replace_line line xs ins = some out) :
    xs + get_string_width ins < line.length ∧
      out = line.take xs ++ ins ++ line.drop (xs + get_string_width ins) := by
  by_cases hb : xs + get_string_width ins < line.length
  · rw [replace_line_eq _ _ _ hb] at h
    exact ⟨hb, (Option.some_inj.mp h).symm⟩
  · rw [replace_line_none _ _ _ hb] at h
    exact Option.noConfusion h

lemma replace_line_length (line ins : RStr) (xs : Nat)
    (hb : xs + get_string_width ins < line.length) (hnn : '\n' ∉ ins) :
    (line.take xs ++ ins ++ line.drop (xs + get_string_width ins)).length =
      line.length := by
  have hw := width_of_no_newline ins hnn
  simp only [List.length_append, List.length_take, List.length_drop]
  omega

lemma zipReplace_length (xs : Nat) :
    ∀ (lines pieces out : List RStr), zipReplace xs lines pieces = some out →
      out.length = lines.length := by
  intro lines
  induction lines with
  | nil =>
    intro pieces out h
    rw [zipReplace] at h
    rw [← Option.some_inj.mp h]
  | cons line rest ih =>
    intro pieces out h
    cases pieces with
    | nil => exact Option.noConfusion h
    | cons p ps =>
      rw [zipReplace] at h
      rcases hrl : replace_line line xs p with _ | l
      · rw [hrl] at h; exact Option.noConfusion h
      · rw [hrl] at h
        rcases hzr : zipReplace xs rest ps with _ | ls
        · rw [hzr] at h; exact Option.noConfusion h
        · rw [hzr] at h
          rw [← Option.some_inj.mp h]
          simp [ih ps ls hzr]

lemma zipReplace_get (xs : Nat) :
    ∀ (lines pieces out : List RStr), zipReplace xs lines pieces = some out →
      ∀ k, k < lines.length →
        replace_line (lines.getD k []) xs (pieces.getD k []) = some (out.getD k []) := by
  intro lines
  induction lines with
  | nil => intro pieces out _ k hk; simp at hk
  | cons line rest ih =>
    intro pieces out h k hk
    cases pieces with
    | nil => exact Option.noConfusion h
    | cons p ps =>
      rw [zipReplace] at h
      rcases hrl : replace_line line xs p with _ | l
      · rw [hrl] at h; exact Option.noConfusion h
      · rw [hrl] at h
        rcases hzr : zipReplace xs rest ps with _ | ls
        · rw [hzr] at h; exact Option.noConfusion h
        · rw [hzr] at h
          rw [← Option.some_inj.mp h]
          cases k with
          | zero => simpa using hrl
          | succ m =>
            simp only [List.getD_cons_succ]
            exact ih ps ls hzr m (by simpa using hk)

lemma zipReplace_total (xs : Nat) :
    ∀ (lines pieces : List RStr), lines.length ≤ pieces.length →
      (∀ k, k < lines.length →
        ∃ o, replace_line (lines.getD k []) xs (pieces.getD k []) = some o) →
      ∃ out, zipReplace xs lines pieces = some out := by
  intro lines
  induction lines with
  | nil => intro pieces _ _; exact ⟨[], rfl⟩
  | cons line rest ih =>
    intro pieces hlen hall
    cases pieces with
    | nil => simp at hlen
    | cons p ps =>
      obtain ⟨o, ho⟩ := hall 0 (by simp)
      simp only [List.getD_cons_zero] at ho
      obtain ⟨os, hos⟩ := ih ps (by simpa using hlen) fun k hk => by
        have := hall (k + 1) (by simpa using hk)
        simpa using this
      exact ⟨o :: os, by rw [zipReplace, ho, hos]⟩

lemma insert_text_some_inv (t : RStr) (lines : List RStr) (g : GridSizes)
    (x y : Nat) (out : List RStr) (h : insert_text t lines g x y = some out) :
    ∃ ys xs mid, get_replaced_dimension_index g.heights y = some ys ∧
      get_replaced_dimension_index g.widths x = some xs ∧
      ys + get_string_height t ≤ lines.length ∧
      zipReplace xs ((lines.drop ys).take (get_string_height t)) (splitLines t) =
        some mid ∧
      out = lines.take ys ++ mid ++ lines.drop (ys + get_string_height t) := by
  rw [insert_text] at h
  rcases hys : get_replaced_dimension_index g.heights y with _ | ys
  · simp only [hys] at h
    exact Option.noConfusion h
  · simp only [hys] at h
    rcases hxs : get_replaced_dimension_index g.widths x with _ | xs
    · simp only [hxs] at h
      exact Option.noConfusion h
    · simp only [hxs, Nat.add_sub_cancel_left] at h
      by_cases hle : ys + get_string_height t ≤ lines.length
      · rw [if_pos hle] at h
        rcases hzr : zipReplace xs ((lines.drop ys).take (get_string_height t))
            (splitLines t) with _ | mid
        · rw [hzr] at h; exact Option.noConfusion h
        · rw [hzr] at h
          exact ⟨ys, xs, mid, rfl, rfl, hle, hzr, (Option.some_inj.mp h).symm⟩
      · rw [if_neg hle] at h
        exact Option.noConfusion h

lemma getD_mem_of_lt {α : Type} (l : List α) (k : Nat) (d : α) (hk : k < l.length) :
    l.getD k d ∈ l := by
  rw [List.getD_eq_getElem?_getD, List.getElem?_eq_getElem hk]
  simp [List.getElem_mem]

lemma sum_take_map_succ (dims : List Nat) (k : Nat) (hk : k < dims.length) :
    ((dims.take (k + 1)).map fun d => d - 1).sum =
      ((dims.take k).map fun d => d - 1).sum + (dims.getD k 0 - 1) := by
  rw [List.map_take, List.map_take, List.sum_take_succ (dims.map fun d => d - 1) k
    (by simpa using hk), List.getElem_map]
  rw [List.getD_eq_getElem?_getD, List.getElem?_eq_getElem hk]
  rfl

lemma sum_take_map_le (dims : List Nat) (k : Nat) :
    ((dims.take k).map fun d => d - 1).sum ≤ (dims.map fun d => d - 1).sum := by
  rw [List.map_take]
  have := List.sum_take_add_sum_drop (dims.map fun d => d - 1) k
  omega

lemma mem_splitLines_facts (t piece : RStr) (h : piece ∈ splitLines t) :
    get_string_width piece = piece.length ∧ piece.length ≤ get_string_width t :=
  ⟨width_of_no_newline piece (splitLines_no_newline t piece h),
    mem_splitLines_width_le t piece h⟩

lemma insert_text_ok (g : GridSizes) (t : RStr) (lines : List RStr) (x y : Nat)
    (h2w : ∀ w ∈ g.widths, 2 ≤ w) (h2h : ∀ h ∈ g.heights, 2 ≤ h)
    (hx : x < g.widths.length) (hy : y < g.heights.length)
    (hwb : get_string_width t + 2 ≤ g.widths.getD x 0)
    (hhb : get_string_height t + 2 ≤ g.heights.getD y 0)
    (hN : lines.length = (g.heights.map fun d => d - 1).sum + 1)
    (hL : ∀ l ∈ lines, l.length = (g.widths.map fun d => d - 1).sum + 1) :
    ∃ out, insert_text t lines g x y = some out ∧
      out.length = lines.length ∧
      (∀ l ∈ out, l.length = (g.widths.map fun d => d - 1).sum + 1) := by
  have hys := get_replaced_dimension_index_eq g.heights y
    (fun d hd => by have := h2h d hd; omega) hy
  have hxs := get_replaced_dimension_index_eq g.widths x
    (fun d hd => by have := h2w d hd; omega) hx
  have hyd2 : 2 ≤ g.heights.getD y 0 := h2h _ (getD_mem_of_lt _ y 0 hy)
  have hxd2 : 2 ≤ g.widths.getD x 0 := h2w _ (getD_mem_of_lt _ x 0 hx)
  have hsy := sum_take_map_succ g.heights y hy
  have hsyle := sum_take_map_le g.heights (y + 1)
  have hsx := sum_take_map_succ g.widths x hx
  have hsxle := sum_take_map_le g.widths (x + 1)
  have hle : (1 + ((g.heights.take y).map fun d => d - 1).sum) + get_string_height t ≤
      lines.length := by omega
  have hlt : (1 + ((g.heights.take y).map fun d => d - 1).sum) + get_string_height t <
      lines.length := by omega
  have hslice : ((lines.drop (1 + ((g.heights.take y).map fun d => d - 1).sum)).take
      (get_string_height t)).length = get_string_height t := by
    simp only [List.length_take, List.length_drop]
    omega
  have hpieces : (splitLines t).length = get_string_height t := splitLines_height t
  have hmid : ∃ mid, zipReplace (1 + ((g.widths.take x).map fun d => d - 1).sum)
      ((lines.drop (1 + ((g.heights.take y).map fun d => d - 1).sum)).take
        (get_string_height t)) (splitLines t) = some mid := by
    apply zipReplace_total
    · rw [hslice, hpieces]
    · intro k hk
      rw [hslice] at hk
      have hline_mem : ((lines.drop (1 + ((g.heights.take y).map fun d => d - 1).sum)).take
          (get_string_height t)).getD k [] ∈ lines :=
        List.mem_of_mem_drop (List.mem_of_mem_take
          (getD_mem_of_lt _ k [] (by rw [hslice]; exact hk)))
      have hline_len := hL _ hline_mem
      have hpiece_mem : (splitLines t).getD k [] ∈ splitLines t :=
        getD_mem_of_lt _ k [] (by rw [hpieces]; exact hk)
      obtain ⟨hpw, hple⟩ := mem_splitLines_facts t _ hpiece_mem
      refine ⟨_, replace_line_eq _ _ _ ?_⟩
      rw [hline_len, hpw]
      omega
  obtain ⟨mid, hmid⟩ := hmid
  have hmidlen := zipReplace_length _ _ _ _ hmid
  rw [hslice] at hmidlen
  refine ⟨lines.take (1 + ((g.heights.take y).map fun d => d - 1).sum) ++ mid ++
      lines.drop ((1 + ((g.heights.take y).map fun d => d - 1).sum) +
        get_string_height t), ?_, ?_, ?_⟩
  · rw [insert_text]
    simp only [hys, hxs, Nat.add_sub_cancel_left, if_pos hle, hmid]
  · simp only [List.length_append, List.length_take, List.length_drop, hmidlen]
    omega
  · intro l hl
    simp only [List.mem_append] at hl
    rcases hl with (hl | hl) | hl
    · exact hL l (List.mem_of_mem_take hl)
    · rw [List.mem_iff_getElem] at hl
      obtain ⟨k, hk, hlk⟩ := hl
      rw [hmidlen] at hk
      have hget := zipReplace_get _ _ _ _ hmid k (by rw [hslice]; exact hk)
      obtain ⟨hbound, hshape⟩ := replace_line_some_inv _ _ _ _ hget
      have hline_mem : ((lines.drop (1 + ((g.heights.take y).map fun d => d - 1).sum)).take
          (get_string_height t)).getD k [] ∈ lines :=
        List.mem_of_mem_drop (List.mem_of_mem_take
          (getD_mem_of_lt _ k [] (by rw [hslice]; exact hk)))
      have hpiece_mem : (splitLines t).getD k [] ∈ splitLines t :=
        getD_mem_of_lt _ k [] (by rw [hpieces]; exact hk)
      have hnn := splitLines_no_newline t _ hpiece_mem
      have hlen := replace_line_length _ _ _ hbound hnn
      have hmidk : mid.getD k [] = l := by
        rw [List.getD_eq_getElem?_getD, List.getElem?_eq_getElem (by rw [hmidlen]; exact hk)]
        simpa using hlk
      rw [← hmidk, hshape, hlen]
      exact hL _ hline_mem
    · exact hL l (List.mem_of_mem_drop hl)

lemma insert_cells_ok (g : GridSizes)
    (h2w : ∀ w ∈ g.widths, 2 ≤ w) (h2h : ∀ h ∈ g.heights, 2 ≤ h)
    (y : Nat) (hy : y < g.heights.length) :
    ∀ (cells : List RStr) (x : Nat) (lines : List RStr),
      lines.length = (g.heights.map fun d => d - 1).sum + 1 →
      (∀ l ∈ lines, l.length = (g.widths.map fun d => d - 1).sum + 1) →
      (∀ k, k < cells.length → x + k < g.widths.length ∧
        get_string_width (cells.getD k []) + 2 ≤ g.widths.getD (x + k) 0 ∧
        get_string_height (cells.getD k []) + 2 ≤ g.heights.getD y 0) →
      ∃ out, insert_cells g y x cells lines = some out ∧
        out.length = lines.length ∧
        (∀ l ∈ out, l.length = (g.widths.map fun d => d - 1).sum + 1) := by
  intro cells
  induction cells with
  | nil =>
    intro x lines hN hL _
    exact ⟨lines, rfl, rfl, hL⟩
  | cons c cs ih =>
    intro x lines hN hL hbounds
    obtain ⟨hx0, hwb0, hhb0⟩ := hbounds 0 (by simp)
    simp only [Nat.add_zero, List.getD_cons_zero] at hx0 hwb0 hhb0
    obtain ⟨lines₂, hins, hlen₂, hL₂⟩ :=
      insert_text_ok g c lines x y h2w h2h hx0 hy hwb0 hhb0 hN hL
    obtain ⟨out, hrec, hreclen, hrecL⟩ := ih (x + 1) lines₂ (by omega) hL₂ fun k hk => by
      have := hbounds (k + 1) (by simpa using hk)
      simpa [Nat.add_assoc, Nat.add_comm 1 k] using this
    refine ⟨out, ?_, by omega, hrecL⟩
    rw [insert_cells, hins]
    exact hrec

lemma insert_rows_ok (g : GridSizes) (U : Nat)
    (h2w : ∀ w ∈ g.widths, 2 ≤ w) (h2h : ∀ h ∈ g.heights, 2 ≤ h) :
    ∀ (rows : List (List RStr)) (y : Nat) (lines : List RStr),
      lines.length = (g.heights.map fun d => d - 1).sum + 1 →
      (∀ l ∈ lines, l.length = (g.widths.map fun d => d - 1).sum + 1) →
      (∀ k, k < rows.length → y + k < g.heights.length ∧
        ∀ j, j < ((rows.getD k []).take U).length →
          j < g.widths.length ∧
          get_string_width (((rows.getD k []).take U).getD j []) + 2 ≤
            g.widths.getD j 0 ∧
          get_string_height (((rows.getD k []).take U).getD j []) + 2 ≤
            g.heights.getD (y + k) 0) →
      ∃ out, insert_rows g U y rows lines = some out ∧
        out.length = lines.length ∧
        (∀ l ∈ out, l.length = (g.widths.map fun d => d - 1).sum + 1) := by
  intro rows
  induction rows with
  | nil =>
    intro y lines hN hL _
    exact ⟨lines, rfl, rfl, hL⟩
  | cons row rest ih =>
    intro y lines hN hL hbounds
    obtain ⟨hy0, hcells⟩ := hbounds 0 (by simp)
    simp only [Nat.add_zero, List.getD_cons_zero] at hy0 hcells
    obtain ⟨lines₂, hins, hlen₂, hL₂⟩ :=
      insert_cells_ok g h2w h2h y hy0 (row.take U) 0 lines hN hL fun k hk => by
        have := hcells k hk
        simpa using this
    obtain ⟨out, hrec, hreclen, hrecL⟩ := ih (y + 1) lines₂ (by omega) hL₂ fun k hk => by
      have := hbounds (k + 1) (by simpa using hk)
      simpa [Nat.add_assoc, Nat.add_comm 1 k] using this
    refine ⟨out, ?_, by omega, hrecL⟩
    rw [insert_rows, hins]
    exact hrec

lemma get_max_widths_getD (U : Nat) (contents : List (List RStr)) (j : Nat)
    (hj : j < U) :
    (get_max_widths U contents).getD j 0 =
      contents.foldl (fun m row => max m (get_string_width (row.getD j []) + 2)) 0 := by
  rw [get_max_widths, List.getD_eq_getElem?_getD,
    List.getElem?_eq_getElem (by simpa using hj), List.getElem_map, List.getElem_range]
  rfl

lemma get_max_heights_getD (U : Nat) (contents : List (List RStr)) (k : Nat)
    (hk : k < contents.length) :
    (get_max_heights U contents).getD k 0 =
      ((contents.getD k []).take U).foldl
        (fun m cell => max m (get_string_height cell + 2)) 0 := by
  rw [get_max_heights, List.getD_eq_getElem?_getD,
    List.getElem?_eq_getElem (by simpa using hk), List.getElem_map]
  rw [List.getD_eq_getElem?_getD, List.getElem?_eq_getElem hk]
  rfl

lemma sum_map_sub_one_total (l : List Nat) (h : ∀ x ∈ l, 2 ≤ x) :
    (l.map fun d => d - 1).sum = l.sum - l.length ∧ l.length ≤ l.sum := by
  induction l with
  | nil => simp
  | cons a t ih =>
    have ha := h a (by simp)
    have := ih fun x hx => h x (by simp [hx])
    simp only [List.map_cons, List.sum_cons, List.length_cons]
    omega

/-- C5 (amended with at least one column): for every non-empty
rectangular Cell Table of arity `U ≥ 1`, the skeleton lines all have
character count equal to the sum of the inferred column widths minus
`U - 1`, and `generate_string_grid` succeeds with every line of its
result of that same character count. -/
theorem string_grid_line_lengths (U : Nat) (contents : List (List RStr))
    (hU : 0 < U) (hne : contents ≠ []) (hrect : ∀ row ∈ contents, row.length = U) :
    (∀ tbl, (GridSizes.mk (get_max_widths U contents)
        (get_max_heights U contents)).to_table = some tbl →
      ∀ l ∈ tbl, l.length = (get_max_widths U contents).sum - (U - 1)) ∧
    ∃ out, generate_string_grid U contents = some out ∧
      ∀ l ∈ out, l.length = (get_max_widths U contents).sum - (U - 1) := by
  have h2w := get_max_widths_ge_two U contents hne
  have h2h := get_max_heights_ge_two U contents hU hrect
  have hwlen := get_max_widths_length U contents
  have hhlen := get_max_heights_length U contents
  have hclen : 0 < contents.length := List.length_pos.mpr hne
  have hwne : get_max_widths U contents ≠ [] := by
    intro hcon; rw [hcon] at hwlen; simp at hwlen; omega
  have hhne : get_max_heights U contents ≠ [] := by
    intro hcon; rw [hcon] at hhlen; simp at hhlen; omega
  have htbl := to_table_eq (GridSizes.mk (get_max_widths U contents)
    (get_max_heights U contents)) hwne hhne h2w h2h
  have hmemlen := specTable_mem_length (GridSizes.mk (get_max_widths U contents)
    (get_max_heights U contents)) hwne h2w
  have htbllen := specTable_length (GridSizes.mk (get_max_widths U contents)
    (get_max_heights U contents)) hhne h2h
  obtain ⟨hsub, hsumle⟩ := sum_map_sub_one_total (get_max_widths U contents) h2w
  have hconv : ((get_max_widths U contents).map fun d => d - 1).sum + 1 =
      (get_max_widths U contents).sum - (U - 1) := by
    rw [hsub, hwlen]
    omega
  constructor
  · intro tbl htbl'
    rw [htbl] at htbl'
    rw [← Option.some_inj.mp htbl']
    intro l hl
    rw [hmemlen l hl]
    exact hconv
  · have hbounds : ∀ k, k < contents.length →
        0 + k < (GridSizes.mk (get_max_widths U contents)
          (get_max_heights U contents)).heights.length ∧
        ∀ j, j < ((contents.getD k []).take U).length →
          j < (GridSizes.mk (get_max_widths U contents)
            (get_max_heights U contents)).widths.length ∧
          get_string_width (((contents.getD k []).take U).getD j []) + 2 ≤
            (GridSizes.mk (get_max_widths U contents)
              (get_max_heights U contents)).widths.getD j 0 ∧
          get_string_height (((contents.getD k []).take U).getD j []) + 2 ≤
            (GridSizes.mk (get_max_widths U contents)
              (get_max_heights U contents)).heights.getD (0 + k) 0 := by
      intro k hk
      simp only [Nat.zero_add]
      have hrow_mem : contents.getD k [] ∈ contents := getD_mem_of_lt _ k [] hk
      have hrowlen : (contents.getD k []).length = U := hrect _ hrow_mem
      have htake : (contents.getD k []).take U = contents.getD k [] :=
        List.take_of_length_le (by omega)
      refine ⟨by show k < (get_max_heights U contents).length; omega,
        fun j hj => ?_⟩
      rw [htake] at hj
      rw [htake]
      have hjU : j < U := by omega
      refine ⟨by show j < (get_max_widths U contents).length; omega, ?_, ?_⟩
      · show get_string_width ((contents.getD k []).getD j []) + 2 ≤
          (get_max_widths U contents).getD j 0
        rw [get_max_widths_getD U contents j hjU]
        exact foldl_max_ge_mem
          (fun row => get_string_width (row.getD j []) + 2) contents _ hrow_mem
      · show get_string_height ((contents.getD k []).getD j []) + 2 ≤
          (get_max_heights U contents).getD k 0
        rw [get_max_heights_getD U contents k hk, htake]
        exact foldl_max_ge_mem (fun cell => get_string_height cell + 2)
          (contents.getD k []) _ (getD_mem_of_lt _ j [] hj)
    obtain ⟨out, hrows, hlen, hmem⟩ :=
      insert_rows_ok (GridSizes.mk (get_max_widths U contents)
          (get_max_heights U contents)) U h2w h2h contents 0
        (specTable (GridSizes.mk (get_max_widths U contents)
          (get_max_heights U contents)))
        htbllen hmemlen hbounds
    refine ⟨out, ?_, fun l hl => by rw [hmem l hl]; exact hconv⟩
    rw [generate_string_grid, if_neg (by simp [hne])]
    simp only [htbl]
    exact hrows

/-- Witness for C5 on the three-column worked example of the source
documentation. -/
theorem string_grid_line_lengths_witness :
    (0 < 3 ∧ ([["Operation".toList, "Values".toList, "Result".toList],
        ["Addition".toList, "4, 12".toList, "16".toList],
        ["Division".toList, "10, 5".toList, "2".toList]] : List (List RStr)) ≠ [] ∧
      (∀ row ∈ ([["Operation".toList, "Values".toList, "Result".toList],
        ["Addition".toList, "4, 12".toList, "16".toList],
        ["Division".toList, "10, 5".toList, "2".toList]] : List (List RStr)),
        row.length = 3)) ∧
    ∃ out, generate_string_grid 3
        [["Operation".toList, "Values".toList, "Result".toList],
         ["Addition".toList, "4, 12".toList, "16".toList],
         ["Division".toList, "10, 5".toList, "2".toList]] = some out ∧
      ∀ l ∈ out, l.length = (get_max_widths 3
        [["Operation".toList, "Values".toList, "Result".toList],
         ["Addition".toList, "4, 12".toList, "16".toList],
         ["Division".toList, "10, 5".toList, "2".toList]]).sum - (3 - 1) :=
  ⟨⟨by decide, by decide, by decide⟩,
    (string_grid_line_lengths 3 _ (by decide) (by decide) (by decide)).2⟩

/-- Counterexample for C5 as frozen: at arity 0 the non-empty
rectangular table `[[]]` makes `generate_string_grid` fail (the skeleton
builder panics on the empty width list), so no line sequence at all is
returned. -/
theorem string_grid_zero_arity_counterexample :
    ([[]] : List (List RStr)) ≠ [] ∧
    (∀ row ∈ ([[]] : List (List RStr)), row.length = 0) ∧
    generate_string_grid 0 [[]] = none := by
  refine ⟨by decide, by decide, rfl⟩

lemma append3_getD_first {α : Type} (a b c : List α) (d : α) (i : Nat)
    (h : i < a.length) :
    (a ++ b ++ c).getD i d = a.getD i d := by
  rw [List.getD_eq_getElem?_getD, List.getD_eq_getElem?_getD, List.getElem?_append,
    if_pos (by simp only [List.length_append]; omega), List.getElem?_append, if_pos h]

lemma append3_getD_second {α : Type} (a b c : List α) (d : α) (i : Nat)
    (h₁ : a.length ≤ i) (h₂ : i - a.length < b.length) :
    (a ++ b ++ c).getD i d = b.getD (i - a.length) d := by
  rw [List.getD_eq_getElem?_getD, List.getD_eq_getElem?_getD, List.getElem?_append,
    if_pos (by simp only [List.length_append]; omega), List.getElem?_append,
    if_neg (by omega)]

lemma append3_getD_third {α : Type} (a b c : List α) (d : α) (i : Nat)
    (h : a.length + b.length ≤ i) :
    (a ++ b ++ c).getD i d = c.getD (i - a.length - b.length) d := by
  rw [List.getD_eq_getElem?_getD, List.getD_eq_getElem?_getD, List.getElem?_append,
    if_neg (by simp only [List.length_append]; omega)]
  simp only [List.length_append]
  have hidx : i - (a.length + b.length) = i - a.length - b.length := by omega
  rw [hidx]

lemma take_getD {α : Type} (l : List α) (n i : Nat) (d : α) (h : i < n) :
    (l.take n).getD i d = l.getD i d := by
  rw [List.getD_eq_getElem?_getD, List.getD_eq_getElem?_getD, List.getElem?_take,
    if_pos h]

lemma drop_getD {α : Type} (l : List α) (n i : Nat) (d : α) :
    (l.drop n).getD i d = l.getD (n + i) d := by
  rw [List.getD_eq_getElem?_getD, List.getD_eq_getElem?_getD, List.getElem?_drop]

lemma spliced_length (line piece : RStr) (xs : Nat)
    (hbound : xs + piece.length < line.length) :
    (line.take xs ++ piece ++ line.drop (xs + piece.length)).length = line.length := by
  simp only [List.length_append, List.length_take, List.length_drop]
  omega

lemma spliced_getD (line piece : RStr) (xs p : Nat)
    (hbound : xs + piece.length < line.length)
    (hp : p < xs ∨ xs + piece.length ≤ p) :
    (line.take xs ++ piece ++ line.drop (xs + piece.length)).getD p ' ' =
      line.getD p ' ' := by
  have hxs_len : (line.take xs).length = xs := by
    simp only [List.length_take]
    omega
  rcases hp with hp | hp
  · rw [append3_getD_first _ _ _ _ _ (by omega), take_getD _ _ _ _ hp]
  · rw [append3_getD_third _ _ _ _ _ (by rw [hxs_len]; omega), hxs_len, drop_getD]
    congr 1
    omega

/-- C4: a successful insertion of one cell changes, on each affected
line, only the character positions from the cell starting offset up to
the character count of that particular line of the inserted text; every
other character of every line is unchanged, the per-line character
offsets being re-mapped to byte offsets on the target line immediately
before substitution. -/
theorem insert_text_frame (t : RStr) (lines : List RStr) (g : GridSizes) (x y : Nat)
    (out : List RStr) (ys xs : Nat)
    (hy : get_replaced_dimension_index g.heights y = some ys)
    (hx : get_replaced_dimension_index g.widths x = some xs)
    (hins : insert_text t lines g x y = some out) :
    out.length = lines.length ∧
    (∀ i, (out.getD i []).length = (lines.getD i []).length) ∧
    (∀ i p, i < ys ∨ ys + get_string_height t ≤ i ∨ p < xs ∨
        xs + ((splitLines t).getD (i - ys) []).length ≤ p →
      (out.getD i []).getD p ' ' = (lines.getD i []).getD p ' ') := by
  obtain ⟨ys', xs', mid, hys', hxs', hle, hzr, hshape⟩ :=
    insert_text_some_inv t lines g x y out hins
  rw [hy] at hys'
  rw [hx] at hxs'
  obtain rfl : ys = ys' := Option.some_inj.mp hys'
  obtain rfl : xs = xs' := Option.some_inj.mp hxs'
  have hht : 1 ≤ get_string_height t := by rw [get_string_height]; omega
  have hslice_len : ((lines.drop ys).take (get_string_height t)).length =
      get_string_height t := by
    simp only [List.length_take, List.length_drop]
    omega
  have hmid_len : mid.length = get_string_height t := by
    rw [zipReplace_length _ _ _ _ hzr, hslice_len]
  have htake_len : (lines.take ys).length = ys := by
    simp only [List.length_take]
    omega
  have hline_slice : ∀ k, k < get_string_height t →
      lines.getD (ys + k) [] =
        ((lines.drop ys).take (get_string_height t)).getD k [] := by
    intro k hk
    rw [take_getD _ _ _ _ hk, drop_getD]
  have hout_lt : ∀ i, i < ys → out.getD i [] = lines.getD i [] := by
    intro i hi
    rw [hshape, append3_getD_first _ _ _ _ _ (by omega), take_getD _ _ _ _ hi]
  have hout_mid : ∀ i, ys ≤ i → i < ys + get_string_height t →
      out.getD i [] = mid.getD (i - ys) [] := by
    intro i hi₁ hi₂
    rw [hshape, append3_getD_second _ _ _ _ _ (by omega) (by rw [htake_len]; omega),
      htake_len]
  have hout_ge : ∀ i, ys + get_string_height t ≤ i →
      out.getD i [] = lines.getD i [] := by
    intro i hi
    rw [hshape, append3_getD_third _ _ _ _ _ (by rw [htake_len, hmid_len]; omega),
      htake_len, hmid_len, drop_getD]
    congr 1
    omega
  have hmid_line : ∀ k, k < get_string_height t →
      (mid.getD k []).length = (lines.getD (ys + k) []).length ∧
      ∀ p, p < xs ∨ xs + ((splitLines t).getD k []).length ≤ p →
        (mid.getD k []).getD p ' ' = (lines.getD (ys + k) []).getD p ' ' := by
    intro k hk
    have hget := zipReplace_get xs _ _ _ hzr k (by rw [hslice_len]; exact hk)
    obtain ⟨hbound, hshape_k⟩ := replace_line_some_inv _ _ _ _ hget
    have hpieces_len : (splitLines t).length = get_string_height t := splitLines_height t
    have hpiece_mem : (splitLines t).getD k [] ∈ splitLines t :=
      getD_mem_of_lt _ k [] (by rw [hpieces_len]; exact hk)
    have hw : get_string_width ((splitLines t).getD k []) =
        ((splitLines t).getD k []).length :=
      width_of_no_newline _ (splitLines_no_newline t _ hpiece_mem)
    rw [hw] at hbound hshape_k
    rw [hline_slice k hk]
    exact ⟨by rw [hshape_k, spliced_length _ _ _ hbound],
      fun p hp => by rw [hshape_k, spliced_getD _ _ _ _ hbound hp]⟩
  refine ⟨?_, ?_, ?_⟩
  · rw [hshape]
    simp only [List.length_append, List.length_take, List.length_drop]
    omega
  · intro i
    by_cases hi₁ : i < ys
    · rw [hout_lt i hi₁]
    · by_cases hi₂ : i < ys + get_string_height t
      · rw [hout_mid i (by omega) hi₂]
        have hmk := (hmid_line (i - ys) (by omega)).1
        rw [hmk]
        congr 2
        omega
      · rw [hout_ge i (by omega)]
  · intro i p hp
    by_cases hi₁ : i < ys
    · rw [hout_lt i hi₁]
    · by_cases hi₂ : i < ys + get_string_height t
      · rcases hp with hp | hp | hp | hp
        · omega
        · omega
        · rw [hout_mid i (by omega) hi₂]
          have hmk := (hmid_line (i - ys) (by omega)).2 p (Or.inl hp)
          rw [hmk]
          congr 2
          omega
        · rw [hout_mid i (by omega) hi₂]
          have hmk := (hmid_line (i - ys) (by omega)).2 p (Or.inr hp)
          rw [hmk]
          congr 2
          omega
      · rw [hout_ge i (by omega)]

/-- Cells of one row paired with their (column, row) coordinates, the
column index increasing from `x`. -/
def cellsFrom (y : Nat) : Nat → List RStr → List ((Nat × Nat) × RStr)
  | _, [] => []
  | x, c :: cs => ((x, y), c) :: cellsFrom y (x + 1) cs

/-- Row-major enumeration of the cells of a table: all cells of the row
at `y` left to right, then the rows below. -/
def rowMajorCells (U : Nat) : Nat → List (List RStr) → List ((Nat × Nat) × RStr)
  | _, [] => []
  | y, row :: rows => cellsFrom y 0 (row.take U) ++ rowMajorCells U (y + 1) rows

lemma insert_cells_foldlM (g : GridSizes) (y : Nat) :
    ∀ (cells : List RStr) (x : Nat) (lines : List RStr),
      insert_cells g y x cells lines =
        (cellsFrom y x cells).foldlM
          (fun ls pc => insert_text pc.2 ls g pc.1.1 pc.1.2) lines := by
  intro cells
  induction cells with
  | nil => intro x lines; rfl
  | cons c cs ih =>
    intro x lines
    rw [cellsFrom, List.foldlM_cons]
    rcases hres : insert_text c lines g x y with _ | l₂
    · rw [insert_cells, hres]
      rfl
    · rw [insert_cells, hres]
      show insert_cells g y (x + 1) cs l₂ = _
      rw [ih (x + 1) l₂]
      rfl

lemma insert_rows_foldlM (g : GridSizes) (U : Nat) :
    ∀ (rows : List (List RStr)) (y : Nat) (lines : List RStr),
      insert_rows g U y rows lines =
        (rowMajorCells U y rows).foldlM
          (fun ls pc => insert_text pc.2 ls g pc.1.1 pc.1.2) lines := by
  intro rows
  induction rows with
  | nil => intro y lines; rfl
  | cons row rest ih =>
    intro y lines
    rw [rowMajorCells, List.foldlM_append]
    rcases hres : insert_cells g y 0 (row.take U) lines with _ | l₂
    · rw [insert_rows, hres, ← insert_cells_foldlM g y (row.take U) 0 lines, hres]
      rfl
    · rw [insert_rows, hres, ← insert_cells_foldlM g y (row.take U) 0 lines, hres]
      show insert_rows g U (y + 1) rest l₂ = _
      rw [ih (y + 1) l₂]
      rfl

/-- C3: for positive sizes, as the inferred ones always are, the
starting line index of row `k` (and starting character index of column
`k`) is 1 plus the sum of `size[j] - 1` over `j < k`; the
cells are inserted in row-major order (the nested loops equal a fold
over the row-major enumeration of coordinate and cell pairs); a
successful insertion rewrites only the line range from the row starting
line to that start plus the content height of the cell text, all lines
outside that range being returned unchanged. -/
theorem content_insertion_layout :
    (∀ (dims : List Nat) (k : Nat), (∀ d ∈ dims, 1 ≤ d) → k < dims.length →
      get_replaced_dimension_index dims k =
        some (1 + ((dims.take k).map fun d => d - 1).sum)) ∧
    (∀ (U : Nat) (contents : List (List RStr)), contents ≠ [] →
      generate_string_grid U contents =
        (GridSizes.mk (get_max_widths U contents)
          (get_max_heights U contents)).to_table.bind
          fun tbl => (rowMajorCells U 0 contents).foldlM
            (fun ls pc => insert_text pc.2 ls
              (GridSizes.mk (get_max_widths U contents) (get_max_heights U contents))
              pc.1.1 pc.1.2) tbl) ∧
    (∀ (t : RStr) (lines : List RStr) (g : GridSizes) (x y : Nat)
        (out : List RStr) (ys : Nat),
      insert_text t lines g x y = some out →
      get_replaced_dimension_index g.heights y = some ys →
      out.length = lines.length ∧
      ∀ i, i < ys ∨ ys + get_string_height t ≤ i →
        out.getD i [] = lines.getD i []) := by
  refine ⟨get_replaced_dimension_index_eq, ?_, ?_⟩
  · intro U contents hne
    rw [generate_string_grid, if_neg (by simp [hne])]
    rcases htbl : (GridSizes.mk (get_max_widths U contents)
        (get_max_heights U contents)).to_table with _ | tbl
    · simp only [htbl]
      rfl
    · simp only [htbl]
      exact insert_rows_foldlM _ U contents 0 tbl
  · intro t lines g x y out ys hins hy
    obtain ⟨ys', xs', mid, hys', hxs', hle, hzr, hshape⟩ :=
      insert_text_some_inv t lines g x y out hins
    rw [hy] at hys'
    obtain rfl : ys = ys' := Option.some_inj.mp hys'
    have hht : 1 ≤ get_string_height t := by rw [get_string_height]; omega
    have hslice_len : ((lines.drop ys).take (get_string_height t)).length =
        get_string_height t := by
      simp only [List.length_take, List.length_drop]
      omega
    have hmid_len : mid.length = get_string_height t := by
      rw [zipReplace_length _ _ _ _ hzr, hslice_len]
    have htake_len : (lines.take ys).length = ys := by
      simp only [List.length_take]
      omega
    constructor
    · rw [hshape]
      simp only [List.length_append, List.length_take, List.length_drop]
      omega
    · intro i hi
      rcases hi with hi | hi
      · rw [hshape, append3_getD_first _ _ _ _ _ (by omega), take_getD _ _ _ _ hi]
      · rw [hshape, append3_getD_third _ _ _ _ _ (by rw [htake_len, hmid_len]; omega),
          htake_len, hmid_len, drop_getD]
        congr 1
        omega

/-- Witness for C4 on a concrete single-cell grid: inserting `ab` into
the 3-line skeleton of a one-column grid rewrites only the two interior
character positions of the middle line. -/
theorem insert_text_frame_witness :
    (get_replaced_dimension_index (GridSizes.mk [4] [3]).heights 0 = some 1 ∧
      get_replaced_dimension_index (GridSizes.mk [4] [3]).widths 0 = some 1 ∧
      insert_text "ab".toList ["┏━━┓".toList, "┃  ┃".toList, "┗━━┛".toList]
        (GridSizes.mk [4] [3]) 0 0 =
        some ["┏━━┓".toList, "┃ab┃".toList, "┗━━┛".toList]) ∧
    (["┏━━┓".toList, "┃ab┃".toList, "┗━━┛".toList].length =
      ["┏━━┓".toList, "┃  ┃".toList, "┗━━┛".toList].length ∧
    (∀ i, ((["┏━━┓".toList, "┃ab┃".toList, "┗━━┛".toList].getD i []).length =
      (["┏━━┓".toList, "┃  ┃".toList, "┗━━┛".toList].getD i []).length)) ∧
    (∀ i p, i < 1 ∨ 1 + get_string_height "ab".toList ≤ i ∨ p < 1 ∨
        1 + ((splitLines "ab".toList).getD (i - 1) []).length ≤ p →
      (["┏━━┓".toList, "┃ab┃".toList, "┗━━┛".toList].getD i []).getD p ' ' =
        (["┏━━┓".toList, "┃  ┃".toList, "┗━━┛".toList].getD i []).getD p ' ')) :=
  ⟨⟨by decide, by decide, by decide⟩,
    insert_text_frame "ab".toList
      ["┏━━┓".toList, "┃  ┃".toList, "┗━━┛".toList] (GridSizes.mk [4] [3]) 0 0
      ["┏━━┓".toList, "┃ab┃".toList, "┗━━┛".toList] 1 1
      (by decide) (by decide) (by decide)⟩

/-- Witness for C3: the offset formula at `dims = [3, 5]`, `k = 1`; the
row-major fold equation on a one-cell table; the line-range frame on the
concrete single-cell insertion. -/
theorem content_insertion_layout_witness :
    ((∀ d ∈ ([3, 5] : List Nat), 1 ≤ d) ∧ 1 < ([3, 5] : List Nat).length ∧
      get_replaced_dimension_index [3, 5] 1 =
        some (1 + ((([3, 5] : List Nat).take 1).map fun d => d - 1).sum)) ∧
    (([["a".toList]] : List (List RStr)) ≠ [] ∧
      generate_string_grid 1 [["a".toList]] =
        (GridSizes.mk (get_max_widths 1 [["a".toList]])
          (get_max_heights 1 [["a".toList]])).to_table.bind
          fun tbl => (rowMajorCells 1 0 [["a".toList]]).foldlM
            (fun ls pc => insert_text pc.2 ls
              (GridSizes.mk (get_max_widths 1 [["a".toList]])
                (get_max_heights 1 [["a".toList]]))
              pc.1.1 pc.1.2) tbl) ∧
    (insert_text "xy".toList ["┏━━┓".toList, "┃  ┃".toList, "┗━━┛".toList]
        (GridSizes.mk [4] [3]) 0 0 =
        some ["┏━━┓".toList, "┃xy┃".toList, "┗━━┛".toList] ∧
      get_replaced_dimension_index (GridSizes.mk [4] [3]).heights 0 = some 1 ∧
      (["┏━━┓".toList, "┃xy┃".toList, "┗━━┛".toList].length =
        ["┏━━┓".toList, "┃  ┃".toList, "┗━━┛".toList].length ∧
      ∀ i, i < 1 ∨ 1 + get_string_height "xy".toList ≤ i →
        ["┏━━┓".toList, "┃xy┃".toList, "┗━━┛".toList].getD i [] =
          ["┏━━┓".toList, "┃  ┃".toList, "┗━━┛".toList].getD i [])) :=
  ⟨⟨by decide, by decide, content_insertion_layout.1 [3, 5] 1 (by decide) (by decide)⟩,
    ⟨by decide, content_insertion_layout.2.1 1 [["a".toList]] (by decide)⟩,
    ⟨by decide, by decide,
      content_insertion_layout.2.2 "xy".toList
        ["┏━━┓".toList, "┃  ┃".toList, "┗━━┛".toList] (GridSizes.mk [4] [3]) 0 0
        ["┏━━┓".toList, "┃xy┃".toList, "┗━━┛".toList] 1
        (by decide) (by decide)⟩⟩
